import Mathlib

/-!
Verification development for the dnscontrol reconciliation core, covering the
Cloudflare provider (`providers/cloudflare/cloudflareProvider.go`), the OVH
provider (`providers/ovh`), and the SPF parser (`pkg/spflib/parse.go`).

Go strings are modelled as Lean `String`; all string primitives used by the
source (`strings.Split`, `strings.HasPrefix`, `strings.HasSuffix`,
`strings.TrimPrefix`, `strings.ToLower`) are given character-list
implementations so that every definition evaluates inside the kernel.
Go `map[string]string` record metadata is modelled by a structure holding the
only keys this code ever reads or writes (`cloudflare_proxy`, `original_ip`
at record level; `cloudflare_proxy_default`, `cloudflare_universalssl` at
domain level); a missing key is the empty string, matching Go's zero value
for map lookups.  Fallible Go functions are modelled with `Except`/`Outcome`;
`log.Fatalf` and `panic` are modelled by the distinguished `Outcome.fatal`
constructor, which is distinct from an ordinarily returned error
(`Outcome.err`).
-/

/-- ASCII lower-casing of one character (the only case `strings.ToLower`
needs on the inputs this code compares: metadata values). -/
def charLower (c : Char) : Char :=
  if 'A' ≤ c ∧ c ≤ 'Z' then Char.ofNat (c.toNat + 32) else c

/-- `strings.ToLower`, modelled for ASCII strings. -/
def asciiLower (s : String) : String := ⟨s.data.map charLower⟩

/-- `strings.HasPrefix s pre`. -/
def hasPrefixStr (pre s : String) : Bool := pre.data.isPrefixOf s.data

/-- `strings.HasSuffix s suf`. -/
def hasSuffixStr (suf s : String) : Bool := suf.data.isSuffixOf s.data

/-- `strings.TrimPrefix s pre`: drops `pre` from the front of `s` when present. -/
def trimPrefixStr (pre s : String) : String :=
  if hasPrefixStr pre s then ⟨s.data.drop pre.data.length⟩ else s

/-- Character-level splitter realising `strings.Split` for a one-character
separator (the source only splits on `\x22 \x22` and `\x22,\x22`). -/
def splitOnCharL (sep : Char) : List Char → List (List Char)
  | [] => [[]]
  | c :: cs =>
    let r := splitOnCharL sep cs
    if c = sep then [] :: r
    else
      match r with
      | [] => [[c]]
      | g :: gs => (c :: g) :: gs

/-- `strings.Split s sep` for a one-character separator. -/
def strSplit (s : String) (sep : Char) : List String :=
  (splitOnCharL sep s.data).map (fun l => ⟨l⟩)

/-- Modelled from the spec: `dnsutil.TrimDomainName` (external library, not
under src/) — the record label relative to the zone origin: the origin
suffix is stripped, and a name equal to the origin becomes `@`. -/
def trimDomainName (s origin : String) : String :=
  if s = origin ∨ s = origin ++ "." then "@"
  else if hasSuffixStr ("." ++ origin) s then
    ⟨s.data.take (s.data.length - ("." ++ origin).data.length)⟩
  else s

/-- `fmt.Sprint` on a boolean. -/
def boolStr (b : Bool) : String := if b then "true" else "false"

/-! ## Canonical record model (`models.RecordConfig` and friends) -/

/-- Record-level metadata (`map[string]string`), restricted to the keys this
code reads or writes: `cloudflare_proxy` and `original_ip`.  Absent keys are
the empty string. -/
structure Meta where
  proxy : String
  originalIP : String
deriving DecidableEq, Repr

/-- The provider-native Cloudflare record (`cfRecord`), restricted to the
fields this code inspects. -/
structure CfNative where
  id : String
  ctype : String
  name : String
  content : String
  proxiable : Bool
  proxied : Bool
  ttl : Nat
deriving DecidableEq, Repr

/-- The provider-native OVH record (`ovh.Record`), restricted to the fields
`GetDomainCorrections`/`nativeToRecord` use: ID, FieldType, SubDomain,
Target, TTL. -/
structure OvhNative where
  id : Nat
  fieldType : String
  subDomain : String
  target : String
  ttl : Nat
deriving DecidableEq, Repr

/-- The opaque `Original` field of a canonical record: a tagged variant in
place of Go's interface type assertion targets (`*cfRecord`, `*ovh.Record`,
`*pageRule`). -/
inductive NativeHandle where
  | cf (r : CfNative)
  | ovh (r : OvhNative)
  | pageRule (id : String)
deriving DecidableEq, Repr

/-- `models.RecordConfig`: the canonical record. `label` is relative to the
zone origin (`GetLabel`), `target` is `GetTargetField`. -/
structure RecordConfig where
  rtype : String
  label : String
  target : String
  ttl : Nat
  meta : Meta
  original : Option NativeHandle
deriving DecidableEq, Repr

/-- Domain-level metadata (`dc.Metadata`), restricted to the keys this code
reads: `cloudflare_proxy_default` and `cloudflare_universalssl`. -/
structure DomainMeta where
  proxyDefault : String
  universalSSL : String
deriving DecidableEq, Repr

/-- `models.DomainConfig`, restricted to the fields this code uses. -/
structure DomainConfig where
  name : String
  records : List RecordConfig
  dmeta : DomainMeta
deriving DecidableEq, Repr

/-- One correction of the plan (`models.Correction`): the deferred closure is
identified by the operation it performs and the record(s) it closes over;
`Msg` is determined by these data. -/
inductive Correction where
  | delRec (existing : RecordConfig)
  | delPageRule (existing : RecordConfig)
  | createRec (desired : RecordConfig)
  | createPageRule (desired : RecordConfig)
  | modRec (existing desired : RecordConfig)
  | modPageRule (existing desired : RecordConfig)
  | universalSSL (enabled : Bool)
  | refreshZone (zone : String)
deriving DecidableEq, Repr

deriving instance DecidableEq for Except

/-- Result of a Go function that can return a value, return an error, or
terminate the process (`log.Fatalf` / `panic`). -/
inductive Outcome (α : Type) where
  | ok (val : α)
  | err (msg : String)
  | fatal (msg : String)
deriving DecidableEq, Repr

/-- True exactly when the outcome is an ordinarily returned error. -/
def Outcome.isReturnedErr {α : Type} : Outcome α → Bool
  | .err _ => true
  | _ => false

/-- True exactly when the outcome is a success. -/
def Outcome.isOkOutcome {α : Type} : Outcome α → Bool
  | .ok _ => true
  | _ => false

/-! ## A canonical linear order on records

The differ (modelled from the spec, §4.2 ordering determinism) sorts records
canonically.  Records are ordered through an injective encoding into
`List Nat`, whose lexicographic order evaluates inside the kernel. -/

/-- Length-prefixed encoding of one string field. -/
def encStr (s : String) (rest : List Nat) : List Nat :=
  s.data.length :: (s.data.map Char.toNat ++ rest)

/-- Encoding of one numeric field. -/
def encNat (n : Nat) (rest : List Nat) : List Nat := n :: rest

/-- Encoding of one boolean field. -/
def encBool (b : Bool) (rest : List Nat) : List Nat :=
  (if b then 1 else 0) :: rest

/-- Encoding of a native Cloudflare record. -/
def encCf (r : CfNative) (rest : List Nat) : List Nat :=
  encStr r.id (encStr r.ctype (encStr r.name (encStr r.content
    (encBool r.proxiable (encBool r.proxied (encNat r.ttl rest))))))

/-- Encoding of a native OVH record. -/
def encOvh (r : OvhNative) (rest : List Nat) : List Nat :=
  encNat r.id (encStr r.fieldType (encStr r.subDomain (encStr r.target
    (encNat r.ttl rest))))

/-- Encoding of the optional native handle. -/
def encHandle : Option NativeHandle → List Nat → List Nat
  | none, rest => 0 :: rest
  | some (.cf r), rest => 1 :: encCf r rest
  | some (.ovh r), rest => 2 :: encOvh r rest
  | some (.pageRule i), rest => 3 :: encStr i rest

/-- Injective encoding of a whole canonical record. -/
def encRec (r : RecordConfig) : List Nat :=
  encStr r.rtype (encStr r.label (encStr r.target (encNat r.ttl
    (encStr r.meta.proxy (encStr r.meta.originalIP (encHandle r.original []))))))

theorem charToNat_injective : Function.Injective Char.toNat := by
  intro a b h
  have ha := Char.ofNat_toNat a
  have hb := Char.ofNat_toNat b
  rw [← ha, ← hb, h]

theorem encStr_inj {s t : String} {r1 r2 : List Nat}
    (h : encStr s r1 = encStr t r2) : s = t ∧ r1 = r2 := by
  unfold encStr at h
  injection h with h1 h2
  obtain ⟨hm, hr⟩ := List.append_inj h2 (by simp [h1])
  have hd : s.data = t.data := List.map_injective_iff.mpr charToNat_injective hm
  refine ⟨?_, hr⟩
  cases s; cases t; exact congrArg String.mk hd

theorem encNat_inj {m n : Nat} {r1 r2 : List Nat}
    (h : encNat m r1 = encNat n r2) : m = n ∧ r1 = r2 := by
  unfold encNat at h
  injection h with h1 h2
  exact ⟨h1, h2⟩

theorem encBool_inj {a b : Bool} {r1 r2 : List Nat}
    (h : encBool a r1 = encBool b r2) : a = b ∧ r1 = r2 := by
  cases a <;> cases b <;> simp [encBool] at h ⊢ <;> simp [h]

theorem encCf_inj {a b : CfNative} {r1 r2 : List Nat}
    (h : encCf a r1 = encCf b r2) : a = b ∧ r1 = r2 := by
  unfold encCf at h
  obtain ⟨h1, h⟩ := encStr_inj h
  obtain ⟨h2, h⟩ := encStr_inj h
  obtain ⟨h3, h⟩ := encStr_inj h
  obtain ⟨h4, h⟩ := encStr_inj h
  obtain ⟨h5, h⟩ := encBool_inj h
  obtain ⟨h6, h⟩ := encBool_inj h
  obtain ⟨h7, h⟩ := encNat_inj h
  cases a; cases b
  simp_all

theorem encOvh_inj {a b : OvhNative} {r1 r2 : List Nat}
    (h : encOvh a r1 = encOvh b r2) : a = b ∧ r1 = r2 := by
  unfold encOvh at h
  obtain ⟨h1, h⟩ := encNat_inj h
  obtain ⟨h2, h⟩ := encStr_inj h
  obtain ⟨h3, h⟩ := encStr_inj h
  obtain ⟨h4, h⟩ := encStr_inj h
  obtain ⟨h5, h⟩ := encNat_inj h
  cases a; cases b
  simp_all

theorem encHandle_inj {a b : Option NativeHandle} {r1 r2 : List Nat}
    (h : encHandle a r1 = encHandle b r2) : a = b ∧ r1 = r2 := by
  match a, b with
  | none, none => simpa [encHandle] using h
  | none, some (.cf _) => simp [encHandle] at h
  | none, some (.ovh _) => simp [encHandle] at h
  | none, some (.pageRule _) => simp [encHandle] at h
  | some (.cf _), none => simp [encHandle] at h
  | some (.cf _), some (.cf _) =>
    simp only [encHandle, List.cons.injEq, true_and] at h
    obtain ⟨h1, h2⟩ := encCf_inj h
    simp [h1, h2]
  | some (.cf _), some (.ovh _) => simp [encHandle] at h
  | some (.cf _), some (.pageRule _) => simp [encHandle] at h
  | some (.ovh _), none => simp [encHandle] at h
  | some (.ovh _), some (.cf _) => simp [encHandle] at h
  | some (.ovh _), some (.ovh _) =>
    simp only [encHandle, List.cons.injEq, true_and] at h
    obtain ⟨h1, h2⟩ := encOvh_inj h
    simp [h1, h2]
  | some (.ovh _), some (.pageRule _) => simp [encHandle] at h
  | some (.pageRule _), none => simp [encHandle] at h
  | some (.pageRule _), some (.cf _) => simp [encHandle] at h
  | some (.pageRule _), some (.ovh _) => simp [encHandle] at h
  | some (.pageRule _), some (.pageRule _) =>
    simp only [encHandle, List.cons.injEq, true_and] at h
    obtain ⟨h1, h2⟩ := encStr_inj h
    simp [h1, h2]

theorem encRec_injective : Function.Injective encRec := by
  intro a b h
  unfold encRec at h
  obtain ⟨h1, h⟩ := encStr_inj h
  obtain ⟨h2, h⟩ := encStr_inj h
  obtain ⟨h3, h⟩ := encStr_inj h
  obtain ⟨h4, h⟩ := encNat_inj h
  obtain ⟨h5, h⟩ := encStr_inj h
  obtain ⟨h6, h⟩ := encStr_inj h
  obtain ⟨h7, _⟩ := encHandle_inj h
  obtain ⟨ta, la, ga, tla, ⟨pa, oa⟩, ha⟩ := a
  obtain ⟨tb, lb, gb, tlb, ⟨pb, ob⟩, hb⟩ := b
  simp_all

/-- The canonical total order on records, through the injective encoding. -/
def rle (a b : RecordConfig) : Prop := encRec a ≤ encRec b

instance : DecidableRel rle :=
  fun a b => inferInstanceAs (Decidable (encRec a ≤ encRec b))

instance : IsTrans RecordConfig rle :=
  ⟨fun _ _ _ h1 h2 => le_trans h1 h2⟩

instance : IsTotal RecordConfig rle :=
  ⟨fun a b => le_total (encRec a) (encRec b)⟩

instance : IsAntisymm RecordConfig rle :=
  ⟨fun _ _ h1 h2 => encRec_injective (le_antisymm h1 h2)⟩

/-- Canonical sorting of a record list (spec §4.2: the differ sorts within
each category so that repeated runs are deterministic). -/
def sortRecs (l : List RecordConfig) : List RecordConfig :=
  List.insertionSort rle l

theorem sortRecs_perm (l : List RecordConfig) : (sortRecs l).Perm l :=
  List.perm_insertionSort rle l

/-- Canonical sorting maps permuted inputs to the same output. -/
theorem sortRecs_eq_of_perm {l1 l2 : List RecordConfig} (h : l1.Perm l2) :
    sortRecs l1 = sortRecs l2 :=
  List.eq_of_perm_of_sorted
    (((sortRecs_perm l1).trans h).trans (sortRecs_perm l2).symm)
    (List.sorted_insertionSort rle l1) (List.sorted_insertionSort rle l2)

/-! ## The differ

`providers/diff` is part of this repository but is not under src/ (only its
callers are), so the reconciliation algorithm below is modelled from the
spec, §4.2. -/

/-- Removes the first element satisfying `p`, returning it together with the
rest of the list in original order. -/
def findRemove {α : Type} (p : α → Bool) : List α → Option (α × List α)
  | [] => none
  | x :: xs =>
    if p x then some (x, xs)
    else
      match findRemove p xs with
      | none => none
      | some (y, ys) => some (y, x :: ys)

/-- Modelled from the spec (§4.2 matching key): two records match exactly
when label, type and primary value coincide. -/
def sameKeyVal (d a : RecordConfig) : Bool :=
  a.label == d.label && a.rtype == d.rtype && a.target == d.target

/-- Modelled from the spec (§4.2): the matching loop.  Each desired record
takes the first exact `(label, type, value)` match out of the pool of actual
records; a matched pair is `unchanged` or `modify` as the comparator (TTL
plus the pluggable provider metadata `extra`) determines; unmatched desired
records become creates and the leftover pool becomes deletes.  Returns
`(unchanged, create, modify, leftover-pool)`, where a `modify` pair is
`(existing, desired)`. -/
def diffRun (extra : RecordConfig → String) :
    List RecordConfig → List RecordConfig →
    List (RecordConfig × RecordConfig) × List RecordConfig ×
      List (RecordConfig × RecordConfig) × List RecordConfig
  | [], pool => ([], [], [], pool)
  | d :: ds, pool =>
    match findRemove (fun a => sameKeyVal d a) pool with
    | some (a, pool') =>
      let r := diffRun extra ds pool'
      if a.ttl == d.ttl && extra a == extra d then
        ((a, d) :: r.1, r.2.1, r.2.2.1, r.2.2.2)
      else (r.1, r.2.1, (a, d) :: r.2.2.1, r.2.2.2)
    | none =>
      let r := diffRun extra ds pool
      (r.1, d :: r.2.1, r.2.2.1, r.2.2.2)

/-- The four partitions produced by the differ. -/
structure DiffResult where
  unchanged : List (RecordConfig × RecordConfig)
  create : List RecordConfig
  del : List RecordConfig
  modify : List (RecordConfig × RecordConfig)
deriving DecidableEq, Repr

/-- Modelled from the spec (§4.2): `diff.New(dc, extraValues).IncrementalDiff`.
Both sides are first sorted canonically so that the outcome is a function of
the input multisets (ordering determinism). -/
def incrementalDiff (extra : RecordConfig → String)
    (desired actual : List RecordConfig) : DiffResult :=
  match diffRun extra (sortRecs desired) (sortRecs actual) with
  | (u, c, m, lo) => ⟨u, c, lo, m⟩

theorem incrementalDiff_perm_actual (extra : RecordConfig → String)
    (desired : List RecordConfig) {a1 a2 : List RecordConfig}
    (h : a1.Perm a2) :
    incrementalDiff extra desired a1 = incrementalDiff extra desired a2 := by
  unfold incrementalDiff
  rw [sortRecs_eq_of_perm h]

theorem findRemove_mem {α : Type} {p : α → Bool} {l : List α} {a : α}
    {l' : List α} (h : findRemove p l = some (a, l')) :
    a ∈ l ∧ ∀ x ∈ l', x ∈ l := by
  induction l generalizing a l' with
  | nil => simp [findRemove] at h
  | cons x xs ih =>
    simp only [findRemove] at h
    split at h
    · obtain ⟨rfl, rfl⟩ := by simpa using h
      exact ⟨List.mem_cons_self _ _, fun y hy => List.mem_cons_of_mem _ hy⟩
    · cases hfr : findRemove p xs with
      | none => rw [hfr] at h; simp at h
      | some yl =>
        obtain ⟨y, ys⟩ := yl
        rw [hfr] at h
        obtain ⟨rfl, rfl⟩ := by simpa using h
        obtain ⟨hy, hsub⟩ := ih hfr
        refine ⟨List.mem_cons_of_mem _ hy, fun z hz => ?_⟩
        rcases List.mem_cons.mp hz with rfl | hz'
        · exact List.mem_cons_self _ _
        · exact List.mem_cons_of_mem _ (hsub z hz')

theorem diffRun_cons_none (extra : RecordConfig → String)
    (d : RecordConfig) (ds pool : List RecordConfig)
    (h : findRemove (fun a => sameKeyVal d a) pool = none) :
    diffRun extra (d :: ds) pool =
      ((diffRun extra ds pool).1, d :: (diffRun extra ds pool).2.1,
        (diffRun extra ds pool).2.2.1, (diffRun extra ds pool).2.2.2) := by
  simp [diffRun, h]

theorem diffRun_cons_same (extra : RecordConfig → String)
    (d : RecordConfig) (ds pool : List RecordConfig) {a : RecordConfig}
    {pool' : List RecordConfig}
    (h : findRemove (fun a => sameKeyVal d a) pool = some (a, pool'))
    (hc : (a.ttl == d.ttl && extra a == extra d) = true) :
    diffRun extra (d :: ds) pool =
      ((a, d) :: (diffRun extra ds pool').1, (diffRun extra ds pool').2.1,
        (diffRun extra ds pool').2.2.1, (diffRun extra ds pool').2.2.2) := by
  simp only [diffRun, h, hc, if_true]

theorem diffRun_cons_diff (extra : RecordConfig → String)
    (d : RecordConfig) (ds pool : List RecordConfig) {a : RecordConfig}
    {pool' : List RecordConfig}
    (h : findRemove (fun a => sameKeyVal d a) pool = some (a, pool'))
    (hc : ¬ (a.ttl == d.ttl && extra a == extra d) = true) :
    diffRun extra (d :: ds) pool =
      ((diffRun extra ds pool').1, (diffRun extra ds pool').2.1,
        (a, d) :: (diffRun extra ds pool').2.2.1,
        (diffRun extra ds pool').2.2.2) := by
  simp only [diffRun, h, if_neg hc]

theorem diffRun_mem (extra : RecordConfig → String)
    (ds pool : List RecordConfig) :
    (∀ x ∈ (diffRun extra ds pool).2.2.2, x ∈ pool) ∧
    (∀ pr ∈ (diffRun extra ds pool).2.2.1, pr.1 ∈ pool) ∧
    (∀ x ∈ (diffRun extra ds pool).2.1, x ∈ ds) := by
  induction ds generalizing pool with
  | nil => simp [diffRun]
  | cons d ds ih =>
    cases hfr : findRemove (fun a => sameKeyVal d a) pool with
    | none =>
      obtain ⟨h1, h2, h3⟩ := ih pool
      rw [diffRun_cons_none extra d ds pool hfr]
      refine ⟨h1, h2, fun x hx => ?_⟩
      rcases List.mem_cons.mp hx with heq | hx'
      · rw [heq]; exact List.mem_cons_self _ _
      · exact List.mem_cons_of_mem _ (h3 x hx')
    | some apair =>
      obtain ⟨a, pool'⟩ := apair
      obtain ⟨hmem, hsub⟩ := findRemove_mem hfr
      obtain ⟨h1, h2, h3⟩ := ih pool'
      by_cases hc : (a.ttl == d.ttl && extra a == extra d) = true
      · rw [diffRun_cons_same extra d ds pool hfr hc]
        exact ⟨fun x hx => hsub x (h1 x hx),
          fun pr hpr => hsub pr.1 (h2 pr hpr),
          fun x hx => List.mem_cons_of_mem _ (h3 x hx)⟩
      · rw [diffRun_cons_diff extra d ds pool hfr hc]
        refine ⟨fun x hx => hsub x (h1 x hx), fun pr hpr => ?_,
          fun x hx => List.mem_cons_of_mem _ (h3 x hx)⟩
        rcases List.mem_cons.mp hpr with heq | hpr'
        · rw [heq]; exact hmem
        · exact hsub pr.1 (h2 pr hpr')

/-- Every delete of the incremental diff is one of the actual records, every
modify references an actual record as its existing side, and every create is
one of the desired records. -/
theorem incrementalDiff_sources (extra : RecordConfig → String)
    (desired actual : List RecordConfig) :
    (∀ x ∈ (incrementalDiff extra desired actual).del, x ∈ actual) ∧
    (∀ pr ∈ (incrementalDiff extra desired actual).modify, pr.1 ∈ actual) ∧
    (∀ x ∈ (incrementalDiff extra desired actual).create, x ∈ desired) := by
  have h := diffRun_mem extra (sortRecs desired) (sortRecs actual)
  unfold incrementalDiff
  constructor
  · intro x hx
    exact (sortRecs_perm actual).mem_iff.mp (h.1 x (by
      revert hx
      cases hd : diffRun extra (sortRecs desired) (sortRecs actual)
      simp_all))
  constructor
  · intro pr hpr
    exact (sortRecs_perm actual).mem_iff.mp (h.2.1 pr (by
      revert hpr
      cases hd : diffRun extra (sortRecs desired) (sortRecs actual)
      simp_all))
  · intro x hx
    exact (sortRecs_perm desired).mem_iff.mp (h.2.2 x (by
      revert hx
      cases hd : diffRun extra (sortRecs desired) (sortRecs actual)
      simp_all))

/-! ## Cloudflare provider (`providers/cloudflare/cloudflareProvider.go`) -/

/-- The provider-level state of `CloudflareApi` that normalization and
reconciliation read: `ignoredLabels`, `manageRedirects`, `ipConversions`.
The `transform` package is not under src/, so `ipConversions` is modelled
from the spec (§4.1.6 value transformation) as a lookup table rewriting
whole address strings, and `net.ParseIP` as the validity test
`isValidIP`. -/
structure CFState where
  ignoredLabels : List String
  manageRedirects : Bool
  ipConversions : List (String × String)
  isValidIP : String → Bool

/-- `labelMatches` (lines 71-79): linear scan for an exact label match. -/
def labelMatches (label : String) (tests : List String) : Bool :=
  tests.any (fun tst => label == tst)

/-- The first TTL conditional of `preprocessConfig` (lines 303-305): 0 and
the dnscontrol default 300 become the automatic-TTL sentinel 1. -/
def cfTTLStep1 (ttl : Nat) : Nat := if ttl = 0 ∨ ttl = 300 then 1 else ttl

/-- The TTL normalization of `preprocessConfig` (lines 300-308): after the
sentinel step, any value other than 1 that is below 120 is raised to 120
(the second conditional reads the already-updated TTL). -/
def cfNormTTL (ttl : Nat) : Nat :=
  if cfTTLStep1 ttl ≠ 1 ∧ cfTTLStep1 ttl < 120 then 120 else cfTTLStep1 ttl

/-- OVH TTL defaulting in `nativeToRecord` (part_000 lines 170-173): the
native zero TTL becomes the OVH default 3600. -/
def ovhNormTTL (ttl : Nat) : Nat := if ttl = 0 then 3600 else ttl

/-- `checkProxyVal` (lines 260-266): lower-case and accept only
on/off/full. -/
def checkProxyVal (v : String) : Except String String :=
  let w := asciiLower v
  if w ≠ "on" ∧ w ≠ "off" ∧ w ≠ "full" then
    .error ("Bad metadata value for cloudflare_proxy: " ++ w ++ ". Use on/off/full")
  else .ok w

/-- The default-proxy resolution of `preprocessConfig` (lines 271-280). -/
def cfDefProxy (dc : DomainConfig) : Except String String :=
  if dc.dmeta.proxyDefault = "" then .ok "off"
  else checkProxyVal dc.dmeta.proxyDefault

/-- CF_REDIRECT/CF_TEMP_REDIRECT test (line 329), as used by the loop body. -/
def isRedirectType (t : String) : Prop := t = "CF_REDIRECT" ∨ t = "CF_TEMP_REDIRECT"

/-- The HTTP status code a redirect record is encoded with (lines 337-340). -/
def redirectCode (r : RecordConfig) : Nat :=
  if r.rtype = "CF_TEMP_REDIRECT" then 302 else 301

instance (t : String) : Decidable (isRedirectType t) :=
  inferInstanceAs (Decidable (_ ∨ _))

/-- The proxy-metadata stage of the loop body of `preprocessConfig`
(lines 310-326): non-proxyable types reject an explicit value and are
forced off; proxyable types default to the domain value or validate the
record value. -/
def preprocessMeta (defProxy : String) (r : RecordConfig) :
    Except String RecordConfig :=
  if r.rtype ≠ "A" ∧ r.rtype ≠ "CNAME" ∧ r.rtype ≠ "AAAA" ∧ r.rtype ≠ "ALIAS" then
    if r.meta.proxy ≠ "" then
      .error ("cloudflare_proxy set on " ++ r.rtype ++ " record: " ++
        r.label ++ " cloudflare_proxy=" ++ r.meta.proxy)
    else .ok { r with meta := { r.meta with proxy := "off" } }
  else
    if r.meta.proxy = "" then
      .ok { r with meta := { r.meta with proxy := defProxy } }
    else
      match checkProxyVal r.meta.proxy with
      | .error e => .error e
      | .ok val => .ok { r with meta := { r.meta with proxy := val } }

/-- The redirect-encoding stage of the loop body of `preprocessConfig`
(lines 328-344): target becomes `from,to,priority,code` and the type
becomes PAGE_RULE, consuming one priority. -/
def preprocessRedirect (c : CFState) (prio : Nat) (r : RecordConfig) :
    Except String (RecordConfig × Nat) :=
  if isRedirectType r.rtype then
    if ¬ c.manageRedirects then
      .error "you must add manage_redirects: true metadata to cloudflare provider to use CF_REDIRECT records"
    else if (strSplit r.target ',').length ≠ 2 then
      .error "Invalid data specified for cloudflare redirect record"
    else
      .ok ({ r with
              target := r.target ++ "," ++ Nat.repr prio ++ "," ++
                Nat.repr (redirectCode r),
              rtype := "PAGE_RULE" },
           prio + 1)
  else .ok (r, prio)

/-- One iteration of the backwards normalization loop of `preprocessConfig`
(lines 295-345): TTL normalization, then the proxy-metadata stage, then the
redirect-encoding stage; `prio` threads `currentPrPrio`.  (The Go
`rec.Metadata == nil` initialization is a no-op under the total metadata
model.) -/
def preprocessRec (c : CFState) (defProxy : String) (prio : Nat)
    (r : RecordConfig) : Except String (RecordConfig × Nat) :=
  match preprocessMeta defProxy { r with ttl := cfNormTTL r.ttl } with
  | .error e => .error e
  | .ok r1 => preprocessRedirect c prio r1

/-- The backwards record loop of `preprocessConfig`: records arrive in
reverse declaration order (the Go loop runs from the last index down) and
`currentPrPrio` starts at 1. -/
def preprocessLoop (c : CFState) (defProxy : String) :
    Nat → List RecordConfig → Except String (List RecordConfig × Nat)
  | prio, [] => .ok ([], prio)
  | prio, r :: rs =>
    match preprocessRec c defProxy prio r with
    | .error e => .error e
    | .ok rp =>
      match preprocessLoop c defProxy rp.2 rs with
      | .error e => .error e
      | .ok restp => .ok (rp.1 :: restp.1, restp.2)

/-- Modelled from the spec (§4.1.6): `transform.TransformIP` (package not
under src/) — address-space remapping as a table lookup; an address not in
the table is unchanged. -/
def transformIP (tbl : List (String × String)) (ip : String) : String :=
  match tbl.find? (fun p => p.1 == ip) with
  | some p => p.2
  | none => ip

/-- The ip-conversion pass of `preprocessConfig` (lines 348-366): only
A records whose proxy metadata is `full` are transformed; the untransformed
address is kept in the `original_ip` metadata. -/
def ipTransformRec (c : CFState) (r : RecordConfig) : Except String RecordConfig :=
  if r.rtype ≠ "A" then .ok r
  else if r.meta.proxy ≠ "full" then .ok r
  else if ¬ c.isValidIP r.target then
    .error (r.target ++ " is not a valid ip address")
  else
    .ok { r with meta := { r.meta with originalIP := r.target },
                 target := transformIP c.ipConversions r.target }

/-- The ip-conversion pass over the whole record list. -/
def ipTransformAll (c : CFState) : List RecordConfig → Except String (List RecordConfig)
  | [] => .ok []
  | r :: rs =>
    match ipTransformRec c r with
    | .error e => .error e
    | .ok r1 =>
      match ipTransformAll c rs with
      | .error e => .error e
      | .ok rest => .ok (r1 :: rest)

/-- `preprocessConfig` (lines 268-369): default-proxy resolution, the
universal-SSL metadata check (which lower-cases only a local copy), the
backwards normalization loop, then the ip-conversion pass. -/
def preprocessConfig (c : CFState) (dc : DomainConfig) : Except String DomainConfig :=
  match cfDefProxy dc with
  | .error e => .error e
  | .ok defProxy =>
    if dc.dmeta.universalSSL ≠ "" ∧ asciiLower dc.dmeta.universalSSL ≠ "on" ∧
        asciiLower dc.dmeta.universalSSL ≠ "off" then
      .error ("Bad metadata value for cloudflare_universalssl: " ++
        asciiLower dc.dmeta.universalSSL ++ ". Use on/off.")
    else
      match preprocessLoop c defProxy 1 dc.records.reverse with
      | .error e => .error e
      | .ok rsp =>
        match ipTransformAll c rsp.1.reverse with
        | .error e => .error e
        | .ok rs2 => .ok { dc with records := rs2 }

/-- `models.RecordConfig.GetLabelFQDN` (not under src/), modelled from the
spec (§3): the label is relative to the origin and `@` denotes the apex. -/
def getLabelFQDN (r : RecordConfig) (origin : String) : String :=
  if r.label = "@" then origin else r.label ++ "." ++ origin

/-- `checkNSModifications` (lines 215-227).  Besides the kept list, the
records whose skipping raises a warning (`printer.Warnf`) are returned, so
the warning behaviour is part of the model: every apex NS record is skipped
(the `continue` applies to all of them) and the warning fires only when the
target is not in Cloudflare's own `.ns.cloudflare.com.` fleet. -/
def checkNSModifications (name : String) :
    List RecordConfig → List RecordConfig × List RecordConfig
  | [] => ([], [])
  | r :: rest =>
    let p := checkNSModifications name rest
    if r.rtype = "NS" ∧ getLabelFQDN r name = name then
      if ¬ hasSuffixStr ".ns.cloudflare.com." r.target then (p.1, r :: p.2)
      else p
    else (r :: p.1, p.2)

/-- `getProxyMetadata` (lines 504-517), serialized to the single value the
differ compares (the returned map holds the single key `proxy`; `nil` is
the empty string).  A desired record (`Original == nil`) answers from its
proxy metadata, an actual record from its native `Proxied` flag.  (In this
flow a non-nil `Original` reaching the type assertion is always a
`cfRecord`, because page rules are not of type A/AAAA/CNAME.) -/
def getProxyExtra (r : RecordConfig) : String :=
  if r.rtype ≠ "A" ∧ r.rtype ≠ "AAAA" ∧ r.rtype ≠ "CNAME" then ""
  else
    match r.original with
    | some (.cf o) => boolStr o.proxied
    | _ => boolStr (r.meta.proxy != "off")

/-- The per-record mutations of the desired-record loop of
`GetDomainCorrections` (lines 132-141): ALIAS becomes CNAME and every
record whose proxy metadata is not `off` has its TTL forced to 1 (proxied
records always carry TTL 1 at the API). -/
def forceDesiredRec (r : RecordConfig) : RecordConfig :=
  if (if r.rtype = "ALIAS" then { r with rtype := "CNAME" } else r).meta.proxy ≠ "off"
  then { (if r.rtype = "ALIAS" then { r with rtype := "CNAME" } else r) with ttl := 1 }
  else (if r.rtype = "ALIAS" then { r with rtype := "CNAME" } else r)

/-- The desired-record loop of `GetDomainCorrections` (lines 132-145): the
per-record mutations, and a desired label matching `ignored_labels` hits
`log.Fatalf`, modelled as the fatal (process-terminating) outcome. -/
def forceDesired (c : CFState) : List RecordConfig → Outcome (List RecordConfig)
  | [] => .ok []
  | r :: rs =>
    if labelMatches (forceDesiredRec r).label c.ignoredLabels then
      .fatal ("FATAL: dnsconfig contains label that matches ignored_labels: " ++
        (forceDesiredRec r).label)
    else
      match forceDesired c rs with
      | .ok l => .ok (forceDesiredRec r :: l)
      | .err m => .err m
      | .fatal m => .fatal m

/-- `checkUniversalSSL` (lines 229-250): requires the configured metadata
value; `getUniversalSSL` (a network fetch) is modelled by the optional
`fetched` value, `none` standing for a fetch error.  Returns
`(changed, newState)`. -/
def checkUniversalSSL (dc : DomainConfig) (fetched : Option Bool) :
    Except String (Bool × Bool) :=
  if dc.dmeta.universalSSL = "" then .error "Metadata not set."
  else
    match fetched with
    | some actual =>
      let expected := dc.dmeta.universalSSL != "off"
      .ok (actual != expected, expected)
    | none => .error "error receiving universal ssl state:"

/-- The actual state the Cloudflare API supplies for one zone:
`getRecordsForDomain` results (canonical records carrying their `cfRecord`
originals), `getPageRules` results, and the universal-SSL zone state
(`none` = the fetch failed). -/
structure CFZone where
  records : List RecordConfig
  pageRules : List RecordConfig
  universalSSLFetch : Option Bool

/-- The `rec.Original.(*cfRecord).Name` access of the ignored-label filter
(line 118); the filter runs before page rules are appended, so `Original`
is a `cfRecord` there. -/
def origName (r : RecordConfig) : String :=
  match r.original with
  | some (.cf o) => o.name
  | _ => ""

/-- Modelled from the spec: `models.PostProcessRecords` (not under src/) —
the records are canonical already and no claim depends on this
normalization, so it is the identity. -/
def postProcessRecords (l : List RecordConfig) : List RecordConfig := l

/-- The actual-record list entering the differ (lines 111-130): records
whose trimmed native name matches `ignored_labels` are deleted (the
backwards in-place deletion is order-preserving filtering), then page rules
are appended when `manage_redirects` is on. -/
def cfActualRecords (c : CFState) (zone : CFZone) (domainName : String) :
    List RecordConfig :=
  let records := zone.records.filter
    (fun r => ! labelMatches (trimDomainName (origName r) domainName) c.ignoredLabels)
  if c.manageRedirects then records ++ zone.pageRules else records

/-- The desired records entering the differ: the force loop followed by the
apex-NS filter (lines 132-150). -/
def cfDesiredForDiff (c : CFState) (name : String)
    (normalized : List RecordConfig) : Outcome (List RecordConfig) :=
  match forceDesired c normalized with
  | .ok recs2 => .ok (checkNSModifications name recs2).1
  | .err m => .err m
  | .fatal m => .fatal m

/-- The delete / create / modify appends of `GetDomainCorrections`
(lines 156-196): page rules take their dedicated corrections; `createRec`
(not under src/) yields the create corrections for one record, modelled as
one correction. -/
def cfDiffCorrections (d : DiffResult) : List Correction :=
  d.del.map (fun ex =>
    if ex.rtype = "PAGE_RULE" then Correction.delPageRule ex else Correction.delRec ex)
  ++ d.create.map (fun des =>
    if des.rtype = "PAGE_RULE" then Correction.createPageRule des else Correction.createRec des)
  ++ d.modify.map (fun pr =>
    if pr.2.rtype = "PAGE_RULE" then Correction.modPageRule pr.1 pr.2
    else Correction.modRec pr.1 pr.2)

/-- The universal-SSL append of `GetDomainCorrections` (lines 198-210): the
zone-level correction is appended exactly when `checkUniversalSSL` returns
no error and reports a change. -/
def cfSSLAppend (dc : DomainConfig) (fetched : Option Bool)
    (corrections : List Correction) : List Correction :=
  match checkUniversalSSL dc fetched with
  | .ok p => if p.1 then corrections ++ [Correction.universalSSL p.2] else corrections
  | .error _ => corrections

/-- The part of Cloudflare `GetDomainCorrections` following
`preprocessConfig` (lines 111-212), as a function of the already-normalized
desired records.  (`preprocessConfig` rewrites only `dc.Records`, so name
and domain metadata are read from `dc`.) -/
def cfCorrectionsAfterPreprocess (c : CFState) (zone : CFZone)
    (dc : DomainConfig) (normalized : List RecordConfig) :
    Outcome (List Correction) :=
  match cfDesiredForDiff c dc.name normalized with
  | .fatal m => .fatal m
  | .err m => .err m
  | .ok desired =>
    .ok (cfSSLAppend dc zone.universalSSLFetch
      (cfDiffCorrections (incrementalDiff getProxyExtra desired
        (postProcessRecords (cfActualRecords c zone dc.name)))))

/-- Cloudflare `GetDomainCorrections` (lines 96-213).  The domain-index
lookup and the network fetches are modelled by the supplied `CFZone`;
`log.Fatalf` surfaces as `Outcome.fatal`. -/
def getDomainCorrections (c : CFState) (zone : CFZone) (dc : DomainConfig) :
    Outcome (List Correction) :=
  match preprocessConfig c dc with
  | .error e => .err e
  | .ok dc1 => cfCorrectionsAfterPreprocess c zone dc dc1.records

/-! ## OVH provider (`providers/ovh`, src/unnamed/part_000) -/

/-- Modelled from the spec: `models.RecordConfig.PopulateFromString` (not
under src/) parses a provider-native target string of the given type into
the canonical target and fails on malformed values; it is supplied as an
explicit parsing oracle `(rtype, target, origin) -> Option target`. -/
def PopulateFn : Type := String → String → String → Option String

/-- The three ways OVH `nativeToRecord` can leave: skip (SOA), a converted
record, or a `panic` on an unparsable record. -/
inductive ConvResult where
  | skip
  | conv (r : RecordConfig)
  | panicked (msg : String)
deriving DecidableEq, Repr

/-- `models.RecordConfig.SetLabel` (not under src/), modelled from the spec
(§3): the empty subdomain denotes the apex. -/
def setLabel (sub : String) : String := if sub = "" then "@" else sub

/-- The OVH type aliasing (part_000 lines 160-163): the custom SPF and DKIM
types become TXT. -/
def ovhCanonType (t : String) : String :=
  if t = "SPF" ∨ t = "DKIM" then "TXT" else t

/-- OVH `nativeToRecord` (part_000 lines 149-176): SOA records are skipped
(`nil`), the custom SPF/DKIM types are aliased to TXT, a parse failure
panics, and a zero TTL becomes the OVH default 3600. -/
def ovhNativeToRecord (parse : PopulateFn) (r : OvhNative) (origin : String) :
    ConvResult :=
  if r.fieldType = "SOA" then .skip
  else
    match parse (ovhCanonType r.fieldType) r.target origin with
    | none => .panicked "unparsable record received from ovh"
    | some tgt =>
      .conv { rtype := ovhCanonType r.fieldType, label := setLabel r.subDomain,
              target := tgt, ttl := ovhNormTTL r.ttl, meta := ⟨"", ""⟩,
              original := some (.ovh r) }

/-- The ingestion loop of OVH `GetDomainCorrections` (part_000 lines
96-102): each native record is converted, `nil` conversions (SOA) are
dropped, and a conversion panic aborts the whole ingestion as a process
fault. -/
def ovhIngest (parse : PopulateFn) (origin : String) :
    List OvhNative → Outcome (List RecordConfig)
  | [] => .ok []
  | r :: rs =>
    match ovhNativeToRecord parse r origin with
    | .panicked m => .fatal m
    | .skip => ovhIngest parse origin rs
    | .conv cr =>
      match ovhIngest parse origin rs with
      | .ok l => .ok (cr :: l)
      | .err m => .err m
      | .fatal m => .fatal m

/-- The record-level corrections of OVH `GetDomainCorrections`
(part_000 lines 110-135): deletes, then creates, then modifies. -/
def ovhRecordCorrections (d : DiffResult) : List Correction :=
  d.del.map (fun ex => Correction.delRec ex)
  ++ d.create.map (fun des => Correction.createRec des)
  ++ d.modify.map (fun pr => Correction.modRec pr.1 pr.2)

/-- The zone-refresh append of OVH `GetDomainCorrections` (part_000 lines
137-144): the REFRESH correction is appended exactly when at least one
record-level correction exists. -/
def ovhAppendRefresh (name : String) (corrections : List Correction) :
    List Correction :=
  if corrections.isEmpty then corrections
  else corrections ++ [Correction.refreshZone name]

/-- OVH `GetDomainCorrections` (part_000 lines 83-147): zone-membership
check, actual-state ingestion (with panic propagation), the diff without a
provider comparator, and the REFRESH-zone correction appended exactly when
at least one record-level correction exists.  `dc.Punycode()` (not under
src/) leaves an all-ASCII configuration unchanged and is modelled as the
identity. -/
def ovhGetDomainCorrections (zones : List String) (parse : PopulateFn)
    (natives : List OvhNative) (dc : DomainConfig) :
    Outcome (List Correction) :=
  if ¬ zones.contains dc.name then
    .err ("Domain " ++ dc.name ++ " not found in your ovh account")
  else
    match ovhIngest parse dc.name natives with
    | .fatal m => .fatal m
    | .err m => .err m
    | .ok actual =>
      .ok (ovhAppendRefresh dc.name
        (ovhRecordCorrections (incrementalDiff (fun _ => "") dc.records
          (postProcessRecords actual))))

/-- CF_REDIRECT/CF_TEMP_REDIRECT test (line 329). -/
def isRedirect (r : RecordConfig) : Bool :=
  r.rtype == "CF_REDIRECT" || r.rtype == "CF_TEMP_REDIRECT"

/-- Number of redirect records in a list (the amount `currentPrPrio` grows
by while the backwards loop crosses the list). -/
def countRedirects (l : List RecordConfig) : Nat := (l.filter isRedirect).length

/-- The proxy metadata value `preprocessRec` stores on success (derived from
lines 310-326): non-proxyable types are forced off, an absent value takes
the domain default, a present value is lower-cased. -/
def resolvedProxy (defProxy : String) (r : RecordConfig) : String :=
  if r.rtype ≠ "A" ∧ r.rtype ≠ "CNAME" ∧ r.rtype ≠ "AAAA" ∧ r.rtype ≠ "ALIAS" then "off"
  else if r.meta.proxy = "" then defProxy
  else asciiLower r.meta.proxy

/-! ## SPF parser (`pkg/spflib/parse.go`) -/

/-- `SPFRecord` (lines 14-17), with each `SPFPart` (lines 33-39) flattened
to `(Text, IsLookup, IncludeDomain, IncludeRecord)`. -/
inductive SPFRecord where
  | mk (parts : List (String × Bool × String × Option SPFRecord))

/-- One SPF part: `(Text, IsLookup, IncludeDomain, IncludeRecord)`. -/
abbrev SPFPartT := String × Bool × String × Option SPFRecord

/-- The `Resolver` interface: `GetSPF` maps a domain to its SPF text or an
error. -/
def ResolverT : Type := String → Except String String

/-- The qualifier byte set (lines 41-46). -/
def isQualifier (c : Char) : Bool := c = '?' || c = '~' || c = '-' || c = '+'

/-- Errors of the modelled `Parse`.  `included` is Go's
`In included spf: ...` wrapping, `resolver` carries a `GetSPF` error
through (Go returns it unwrapped as a string), and `noFuel` is produced
only by the fuel instrumentation of the model, never by a source code
path. -/
inductive SPFErr where
  | notSpf
  | mustBeLast (part : String)
  | unsupported (part : String)
  | resolver (msg : String)
  | included (e : SPFErr)
  | noFuel
deriving DecidableEq, Repr

/-- The part loop of `Parse` (lines 55-100).  `parseSub` is the recursive
`Parse` call resolving includes; `pi` and `len` mirror the Go range index
over `parts[1:]` and `len(parts)` for the redirect-must-be-last check.
Each part is appended before dispatch, `all` stops the loop keeping the
parts seen so far, and errors abort the parse. -/
def parseParts (parseSub : String → Except SPFErr SPFRecord)
    (dnsres : Option ResolverT) :
    List String → Nat → Nat → Except SPFErr (List SPFPartT)
  | [], _, _ => .ok []
  | part :: restParts, pi, len =>
    if part = "" then parseParts parseSub dnsres restParts (pi + 1) len
    else
      let core : String :=
        if isQualifier (part.data.headD 'x') then ⟨part.data.drop 1⟩ else part
      if core = "all" then .ok [(part, false, "", none)]
      else if hasPrefixStr "a" core ∨ hasPrefixStr "mx" core then
        (parseParts parseSub dnsres restParts (pi + 1) len).map
          (fun rest => (part, true, "", none) :: rest)
      else if hasPrefixStr "ip4:" core ∨ hasPrefixStr "ip6:" core then
        (parseParts parseSub dnsres restParts (pi + 1) len).map
          (fun rest => (part, false, "", none) :: rest)
      else if hasPrefixStr "include:" core ∨ hasPrefixStr "redirect:" core then
        if hasPrefixStr "redirect:" core ∧ pi + 2 ≠ len then
          .error (.mustBeLast core)
        else
          let dom : String :=
            if hasPrefixStr "redirect:" core then trimPrefixStr "redirect:" core
            else trimPrefixStr "include:" core
          match dnsres with
          | none =>
            (parseParts parseSub dnsres restParts (pi + 1) len).map
              (fun rest => (part, true, dom, none) :: rest)
          | some res =>
            match res dom with
            | .error e => .error (.resolver e)
            | .ok sub =>
              match parseSub sub with
              | .error e => .error (.included e)
              | .ok subRec =>
                (parseParts parseSub dnsres restParts (pi + 1) len).map
                  (fun rest => (part, true, dom, some subRec) :: rest)
      else if hasPrefixStr "exists:" core ∨ hasPrefixStr "ptr:" core then
        (parseParts parseSub dnsres restParts (pi + 1) len).map
          (fun rest => (part, true, "", none) :: rest)
      else .error (.unsupported core)

/-- `Parse` (lines 49-102), instrumented with recursion-depth fuel: the
source has no depth guard or cycle detection, so the model consumes one
unit of fuel per nested include resolution; exhaustion surfaces as the
distinguished `noFuel` error, which no source code path produces. -/
def parseSPF : Nat → Option ResolverT → String → Except SPFErr SPFRecord
  | 0, _, _ => .error .noFuel
  | fuel + 1, dnsres, text =>
    if ¬ hasPrefixStr "v=spf1 " text then .error .notSpf
    else
      let parts := strSplit text ' '
      (parseParts (parseSPF fuel dnsres) dnsres (parts.drop 1) 0 parts.length).map
        (fun ps => SPFRecord.mk ps)

/-- A resolver whose answers form a one-element include cycle: every domain
resolves to an SPF record that includes the domain `x` again. -/
def cycResolver : ResolverT := fun _ => .ok "v=spf1 include:x"

/-- The error after exhausting `n` levels of include recursion: `n` layers
of Go's `In included spf:` wrapping around the fuel marker. -/
def nestErr : Nat → SPFErr
  | 0 => .noFuel
  | n + 1 => .included (nestErr n)

/-! ## Lemmas about the normalization pipeline -/

/-- `Except` success test. -/
def exceptOk {α : Type} : Except String α → Bool
  | .ok _ => true
  | .error _ => false

theorem cfNormTTL_sentinel (t : Nat) (h : t = 0 ∨ t = 300) : cfNormTTL t = 1 := by
  unfold cfNormTTL cfTTLStep1
  split_ifs <;> omega

theorem cfNormTTL_low (t : Nat) (h0 : t ≠ 0) (h300 : t ≠ 300) (h1 : t ≠ 1)
    (hlt : t < 120) : cfNormTTL t = 120 := by
  unfold cfNormTTL cfTTLStep1
  split_ifs <;> omega

theorem cfNormTTL_idem (t : Nat) : cfNormTTL (cfNormTTL t) = cfNormTTL t := by
  by_cases h0 : t = 0 ∨ t = 300
  · rw [cfNormTTL_sentinel t h0]
    decide
  · push_neg at h0
    by_cases h1 : t = 1
    · subst h1
      decide
    · by_cases hlt : t < 120
      · rw [cfNormTTL_low t h0.1 h0.2 h1 hlt]
        decide
      · have hfix : cfNormTTL t = t := by
          unfold cfNormTTL cfTTLStep1
          split_ifs <;> omega
        rw [hfix, hfix]

theorem ovhNormTTL_idem (t : Nat) : ovhNormTTL (ovhNormTTL t) = ovhNormTTL t := by
  simp only [ovhNormTTL]
  split_ifs <;> omega

theorem checkProxyVal_ok {v w : String} (h : checkProxyVal v = .ok w) :
    w = asciiLower v ∧ (w = "on" ∨ w = "off" ∨ w = "full") := by
  simp only [checkProxyVal] at h
  by_cases hc : asciiLower v ≠ "on" ∧ asciiLower v ≠ "off" ∧ asciiLower v ≠ "full"
  · rw [if_pos hc] at h
    exact absurd h (by simp)
  · rw [if_neg hc] at h
    injection h with h1
    subst h1
    by_cases h1 : asciiLower v = "on"
    · exact ⟨rfl, Or.inl h1⟩
    by_cases h2 : asciiLower v = "off"
    · exact ⟨rfl, Or.inr (Or.inl h2)⟩
    have h3 : asciiLower v = "full" := by tauto
    exact ⟨rfl, Or.inr (Or.inr h3)⟩

theorem cfDefProxy_ok {dc : DomainConfig} {dp : String}
    (h : cfDefProxy dc = .ok dp) : dp = "on" ∨ dp = "off" ∨ dp = "full" := by
  unfold cfDefProxy at h
  split at h
  · injection h with h1
    exact Or.inr (Or.inl h1.symm)
  · exact (checkProxyVal_ok h).2

theorem preprocessMeta_ok {dp : String} {r r1 : RecordConfig}
    (h : preprocessMeta dp r = .ok r1) :
    r1 = { r with meta := { r.meta with proxy := resolvedProxy dp r } } := by
  unfold preprocessMeta at h
  unfold resolvedProxy
  split at h
  case isTrue hnp =>
    rw [if_pos hnp]
    split at h
    · exact absurd h (by simp)
    · injection h with h1
      exact h1.symm
  case isFalse hnp =>
    rw [if_neg hnp]
    split at h
    case isTrue he =>
      rw [if_pos he]
      injection h with h1
      exact h1.symm
    case isFalse he =>
      rw [if_neg he]
      cases hcv : checkProxyVal r.meta.proxy with
      | error e =>
        rw [hcv] at h
        exact absurd h (by simp)
      | ok val =>
        rw [hcv] at h
        injection h with h1
        rw [← h1, (checkProxyVal_ok hcv).1]

theorem preprocessRedirect_not {c : CFState} {p : Nat} {r : RecordConfig}
    (h : ¬ isRedirectType r.rtype) : preprocessRedirect c p r = .ok (r, p) := by
  unfold preprocessRedirect
  rw [if_neg h]

theorem preprocessRedirect_ok_char {c : CFState} {p : Nat} {r : RecordConfig}
    {rp : RecordConfig × Nat} (hred : isRedirectType r.rtype)
    (h : preprocessRedirect c p r = .ok rp) :
    c.manageRedirects = true ∧ (strSplit r.target ',').length = 2 ∧
    rp = ({ r with
            target := r.target ++ "," ++ Nat.repr p ++ "," ++
              Nat.repr (redirectCode r),
            rtype := "PAGE_RULE" }, p + 1) := by
  unfold preprocessRedirect at h
  rw [if_pos hred] at h
  split at h
  · exact absurd h (by simp)
  case isFalse hm =>
    split at h
    · exact absurd h (by simp)
    case isFalse hs =>
      refine ⟨by revert hm; cases c.manageRedirects <;> simp, by omega, ?_⟩
      injection h with h1
      exact h1.symm

theorem resolvedProxy_ttl (dp : String) (r : RecordConfig) (t : Nat) :
    resolvedProxy dp { r with ttl := t } = resolvedProxy dp r := rfl

theorem preprocessRec_ok_iff {c : CFState} {dp : String} {p : Nat}
    {r : RecordConfig} {rp : RecordConfig × Nat} :
    preprocessRec c dp p r = .ok rp ↔
    ∃ r1, preprocessMeta dp { r with ttl := cfNormTTL r.ttl } = .ok r1 ∧
      preprocessRedirect c p r1 = .ok rp := by
  unfold preprocessRec
  cases preprocessMeta dp { r with ttl := cfNormTTL r.ttl } <;> simp

theorem preprocessRec_ok_nonred {c : CFState} {dp : String} {p : Nat}
    {r : RecordConfig} {rp : RecordConfig × Nat}
    (hnr : ¬ isRedirectType r.rtype)
    (h : preprocessRec c dp p r = .ok rp) :
    rp = ({ r with ttl := cfNormTTL r.ttl,
                   meta := { r.meta with proxy := resolvedProxy dp r } }, p) := by
  obtain ⟨r1, hm, hr⟩ := preprocessRec_ok_iff.mp h
  have h1 := preprocessMeta_ok hm
  subst h1
  have hnr2 : ¬ isRedirectType
      ({ r with ttl := cfNormTTL r.ttl,
                meta := { r.meta with proxy := resolvedProxy dp r } } :
        RecordConfig).rtype := hnr
  have h4 := (preprocessRedirect_not hnr2).symm.trans hr
  injection h4 with h5
  exact h5.symm

theorem preprocessRec_ok_red {c : CFState} {dp : String} {p : Nat}
    {r : RecordConfig} {rp : RecordConfig × Nat}
    (hred : isRedirectType r.rtype)
    (h : preprocessRec c dp p r = .ok rp) :
    c.manageRedirects = true ∧ (strSplit r.target ',').length = 2 ∧
    rp = ({ r with ttl := cfNormTTL r.ttl,
                   meta := { r.meta with proxy := resolvedProxy dp r },
                   target := r.target ++ "," ++ Nat.repr p ++ "," ++
                     Nat.repr (redirectCode r),
                   rtype := "PAGE_RULE" }, p + 1) := by
  obtain ⟨r1, hm, hr⟩ := preprocessRec_ok_iff.mp h
  have h1 := preprocessMeta_ok hm
  subst h1
  have hred2 : isRedirectType
      ({ r with ttl := cfNormTTL r.ttl,
                meta := { r.meta with proxy := resolvedProxy dp r } } :
        RecordConfig).rtype := hred
  exact preprocessRedirect_ok_char hred2 hr

theorem preprocessRec_redirect_bad {c : CFState} {dp : String} {p : Nat}
    {r : RecordConfig} (hred : isRedirectType r.rtype)
    (hbad : c.manageRedirects = false ∨ (strSplit r.target ',').length ≠ 2) :
    ∃ e, preprocessRec c dp p r = .error e := by
  cases hr : preprocessRec c dp p r with
  | error e => exact ⟨e, rfl⟩
  | ok rp =>
    obtain ⟨hm, hs, _⟩ := preprocessRec_ok_red hred hr
    rcases hbad with hb | hb
    · rw [hm] at hb
      exact absurd hb (by simp)
    · exact absurd hs hb

/-- The TTL of every record surviving `preprocessRec` is exactly
`cfNormTTL` of its input TTL. -/
theorem preprocessRec_ttl {c : CFState} {dp : String} {p : Nat}
    {r : RecordConfig} {rp : RecordConfig × Nat}
    (h : preprocessRec c dp p r = .ok rp) : rp.1.ttl = cfNormTTL r.ttl := by
  by_cases hred : isRedirectType r.rtype
  · rw [(preprocessRec_ok_red hred h).2.2]
  · rw [preprocessRec_ok_nonred hred h]

/-- The converted TTL of every record surviving OVH `nativeToRecord` is
exactly `ovhNormTTL` of the native TTL. -/
theorem ovhNativeToRecord_ttl {parse : PopulateFn} {r : OvhNative}
    {origin : String} {cr : RecordConfig}
    (h : ovhNativeToRecord parse r origin = .conv cr) :
    cr.ttl = ovhNormTTL r.ttl := by
  unfold ovhNativeToRecord at h
  split at h
  · exact absurd h (by simp)
  · cases hp : parse (ovhCanonType r.fieldType) r.target origin with
    | none =>
      rw [hp] at h
      exact absurd h (by simp)
    | some tgt =>
      rw [hp] at h
      injection h with h1
      rw [← h1]

/-- C9: the SPF parser has no recursion depth guard or cycle detection —
against the resolver whose every answer is an SPF record including domain
`x` again, `Parse` (modelled by the fuel-indexed `parseSPF`) exhausts every
fuel bound `n`, producing `n` levels of include nesting around the
out-of-fuel marker, so no recursion-depth bound holds and the source
recursion (which has no fuel) does not terminate on this resolver. -/
theorem spec_C9_spf_include_cycle_unbounded :
    ∀ n : Nat, parseSPF n (some cycResolver) "v=spf1 include:x" =
      .error (nestErr n) := by
  intro n
  induction n with
  | zero => rfl
  | succ k ih =>
    have hstep : parseSPF (k + 1) (some cycResolver) "v=spf1 include:x" =
        Except.map (fun ps => SPFRecord.mk ps)
          (match parseSPF k (some cycResolver) "v=spf1 include:x" with
           | .error e => Except.error (SPFErr.included e)
           | .ok subRec => Except.ok [("include:x", true, "x", some subRec)]) := by
      rfl
    rw [hstep, ih]
    rfl

/-- C2: TTL normalization maps sentinels to the provider floor and raises
sub-minimum values: for Cloudflare, an input TTL of 0 or 300 becomes 1 and
any other input TTL besides the automatic sentinel 1 that is below 120
becomes 120, and the TTL a record carries after `preprocessRec` is exactly
`cfNormTTL` of its input TTL; for OVH, a native TTL of 0 becomes 3600 and
the ingested TTL is exactly `ovhNormTTL` of the native TTL; both maps are
pure functions of the input TTL alone and idempotent. -/
theorem spec_C2_ttl_normalization :
    (∀ t : Nat, (t = 0 ∨ t = 300) → cfNormTTL t = 1) ∧
    (∀ t : Nat, t ≠ 0 → t ≠ 300 → t ≠ 1 → t < 120 → cfNormTTL t = 120) ∧
    (∀ (c : CFState) (dp : String) (p : Nat) (r : RecordConfig)
       (rp : RecordConfig × Nat),
       preprocessRec c dp p r = .ok rp → rp.1.ttl = cfNormTTL r.ttl) ∧
    ovhNormTTL 0 = 3600 ∧
    (∀ (parse : PopulateFn) (r : OvhNative) (origin : String)
       (cr : RecordConfig),
       ovhNativeToRecord parse r origin = .conv cr → cr.ttl = ovhNormTTL r.ttl) ∧
    (∀ t : Nat, cfNormTTL (cfNormTTL t) = cfNormTTL t) ∧
    (∀ t : Nat, ovhNormTTL (ovhNormTTL t) = ovhNormTTL t) :=
  ⟨cfNormTTL_sentinel, cfNormTTL_low,
   fun _ _ _ _ _ h => preprocessRec_ttl h, rfl,
   fun _ _ _ _ h => ovhNativeToRecord_ttl h, cfNormTTL_idem, ovhNormTTL_idem⟩

/-- Witness for C2 at concrete TTLs: 300 normalizes to 1 and 50 normalizes
to 120 under the Cloudflare map. -/
theorem spec_C2_ttl_normalization_witness :
    cfNormTTL 300 = 1 ∧ cfNormTTL 50 = 120 :=
  ⟨spec_C2_ttl_normalization.1 300 (Or.inr rfl),
   spec_C2_ttl_normalization.2.1 50 (by decide) (by decide) (by decide)
     (by decide)⟩

/-! ## Apex-NS handling (C3) -/

theorem checkNSModifications_kept (name : String) (records : List RecordConfig) :
    (checkNSModifications name records).1 =
      records.filter (fun r => ! (r.rtype == "NS" && getLabelFQDN r name == name)) := by
  induction records with
  | nil => rfl
  | cons r rest ih =>
    unfold checkNSModifications
    by_cases hapex : r.rtype = "NS" ∧ getLabelFQDN r name = name
    · rw [if_pos hapex]
      have hb : (! (r.rtype == "NS" && getLabelFQDN r name == name)) = false := by
        simp [hapex.1, hapex.2]
      rw [List.filter_cons, hb]
      split <;> simpa using ih
    · rw [if_neg hapex]
      have hb : (! (r.rtype == "NS" && getLabelFQDN r name == name)) = true := by
        rw [Bool.not_eq_true', Bool.and_eq_false_iff]
        by_cases h1 : r.rtype = "NS"
        · exact Or.inr (by simpa using fun h2 => hapex ⟨h1, h2⟩)
        · exact Or.inl (by simpa using h1)
      rw [List.filter_cons, hb]
      simpa using ih

theorem checkNSModifications_warned (name : String)
    (records : List RecordConfig) (x : RecordConfig) :
    x ∈ (checkNSModifications name records).2 ↔
      (x ∈ records ∧ x.rtype = "NS" ∧ getLabelFQDN x name = name ∧
        ¬ hasSuffixStr ".ns.cloudflare.com." x.target = true) := by
  induction records with
  | nil => simp [checkNSModifications]
  | cons r rest ih =>
    unfold checkNSModifications
    by_cases hapex : r.rtype = "NS" ∧ getLabelFQDN r name = name
    · rw [if_pos hapex]
      by_cases hsuf : hasSuffixStr ".ns.cloudflare.com." r.target = true
      · rw [if_neg (by simpa using hsuf)]
        rw [ih]
        constructor
        · rintro ⟨hm, hc⟩
          exact ⟨List.mem_cons_of_mem _ hm, hc⟩
        · rintro ⟨hmem, hns, hfq, hnsuf⟩
          rcases List.mem_cons.mp hmem with heq | hmem2
          · subst heq
            exact absurd hsuf hnsuf
          · exact ⟨hmem2, hns, hfq, hnsuf⟩
      · rw [if_pos (by simpa using hsuf)]
        constructor
        · intro hx
          rcases List.mem_cons.mp hx with heq | hx2
          · subst heq
            exact ⟨List.mem_cons_self _ _, hapex.1, hapex.2, hsuf⟩
          · obtain ⟨hm, hc⟩ := ih.mp hx2
            exact ⟨List.mem_cons_of_mem _ hm, hc⟩
        · rintro ⟨hmem, hns, hfq, hnsuf⟩
          rcases List.mem_cons.mp hmem with heq | hmem2
          · subst heq
            exact List.mem_cons_self _ _
          · exact List.mem_cons_of_mem _ (ih.mpr ⟨hmem2, hns, hfq, hnsuf⟩)
    · rw [if_neg hapex]
      rw [ih]
      constructor
      · rintro ⟨hm, hc⟩
        exact ⟨List.mem_cons_of_mem _ hm, hc⟩
      · rintro ⟨hmem, hns, hfq, hnsuf⟩
        rcases List.mem_cons.mp hmem with heq | hmem2
        · subst heq
          exact absurd ⟨hns, hfq⟩ hapex
        · exact ⟨hmem2, hns, hfq, hnsuf⟩

/-- An apex NS record whose target lies inside Cloudflare's own nameserver
fleet. -/
def c3ApexNS : RecordConfig :=
  { rtype := "NS", label := "@", target := "stella.ns.cloudflare.com.",
    ttl := 300, meta := ⟨"", ""⟩, original := none }

/-- C3 counterexample: `checkNSModifications` drops an apex NS record even
when its target ends in `.ns.cloudflare.com.` (and raises no warning for
it), contradicting the claim that such records are retained. -/
theorem spec_C3_counterexample :
    (checkNSModifications "example.com" [c3ApexNS]).1 = [] ∧
    (checkNSModifications "example.com" [c3ApexNS]).2 = [] := by
  decide

/-- C3 (amended): `checkNSModifications` removes every apex NS record from
the desired set, regardless of its target; the warning fires exactly for
the removed apex NS records whose target does not end in
`.ns.cloudflare.com.`; and records that are not apex NS records are all
kept (in order). -/
theorem spec_C3_amended_apex_ns (name : String) (records : List RecordConfig) :
    (checkNSModifications name records).1 =
      records.filter (fun r => ! (r.rtype == "NS" && getLabelFQDN r name == name)) ∧
    (∀ x, x ∈ (checkNSModifications name records).2 ↔
      (x ∈ records ∧ x.rtype = "NS" ∧ getLabelFQDN x name = name ∧
        ¬ hasSuffixStr ".ns.cloudflare.com." x.target = true)) :=
  ⟨checkNSModifications_kept name records,
   fun x => checkNSModifications_warned name records x⟩

/-! ## The backwards loop and redirect encoding (C5) -/

theorem isRedirect_true_iff (r : RecordConfig) :
    isRedirect r = true ↔ isRedirectType r.rtype := by
  simp [isRedirect, isRedirectType]

theorem countRedirects_nil : countRedirects [] = 0 := rfl

theorem countRedirects_cons (r : RecordConfig) (l : List RecordConfig) :
    countRedirects (r :: l) =
      (if isRedirect r = true then 1 else 0) + countRedirects l := by
  by_cases hb : isRedirect r = true <;>
    simp [countRedirects, List.filter_cons, hb, Nat.add_comm]

theorem preprocessLoop_ok_redirects {c : CFState} {dp : String} :
    ∀ {l : List RecordConfig} {p : Nat} {lp : List RecordConfig × Nat},
      preprocessLoop c dp p l = .ok lp →
      ∀ r ∈ l, isRedirectType r.rtype →
        c.manageRedirects = true ∧ (strSplit r.target ',').length = 2 := by
  intro l
  induction l with
  | nil =>
    intro p lp _ r hr
    exact absurd hr (by simp)
  | cons x xs ih =>
    intro p lp h r hr hred
    unfold preprocessLoop at h
    split at h
    next e heq => exact absurd h (by simp)
    next rp heq =>
      split at h
      next e2 heq2 => exact absurd h (by simp)
      next restp heq2 =>
        rcases List.mem_cons.mp hr with heqr | hmem
        · subst heqr
          exact ⟨(preprocessRec_ok_red hred heq).1,
                 (preprocessRec_ok_red hred heq).2.1⟩
        · exact ih heq2 r hmem hred

theorem preprocessLoop_char {c : CFState} {dp : String} :
    ∀ {l : List RecordConfig} {p : Nat} {lp : List RecordConfig × Nat},
      preprocessLoop c dp p l = .ok lp →
      lp.1.length = l.length ∧ lp.2 = p + countRedirects l ∧
      (∀ (i : Nat) (h1 : i < l.length) (h2 : i < lp.1.length),
        isRedirectType (l.get ⟨i, h1⟩).rtype →
          (lp.1.get ⟨i, h2⟩).rtype = "PAGE_RULE" ∧
          (lp.1.get ⟨i, h2⟩).target =
            (l.get ⟨i, h1⟩).target ++ "," ++
            Nat.repr (p + countRedirects (l.take i)) ++ "," ++
            Nat.repr (redirectCode (l.get ⟨i, h1⟩))) := by
  intro l
  induction l with
  | nil =>
    intro p lp h
    unfold preprocessLoop at h
    injection h with h1
    subst h1
    refine ⟨rfl, by simp [countRedirects_nil], ?_⟩
    intro i h1
    exact absurd h1 (by simp)
  | cons r rs ih =>
    intro p lp h
    unfold preprocessLoop at h
    split at h
    next e heq => exact absurd h (by simp)
    next rp heq =>
      split at h
      next e2 heq2 => exact absurd h (by simp)
      next restp heq2 =>
        injection h with h1
        subst h1
        obtain ⟨ihlen, ihp, ihget⟩ := ih heq2
        have hrp2 : rp.2 = p + (if isRedirect r = true then 1 else 0) := by
          by_cases hred : isRedirectType r.rtype
          · rw [(preprocessRec_ok_red hred heq).2.2]
            rw [if_pos ((isRedirect_true_iff r).mpr hred)]
          · rw [preprocessRec_ok_nonred hred heq]
            rw [if_neg (fun hb => hred ((isRedirect_true_iff r).mp hb))]
            rfl
        refine ⟨by simp [ihlen], ?_, ?_⟩
        · show restp.2 = p + countRedirects (r :: rs)
          rw [ihp, hrp2, countRedirects_cons]
          cases hb : isRedirect r <;> simp [hb] <;> omega
        · intro i h1 h2
          cases i with
          | zero =>
            intro hred
            have hred0 : isRedirectType r.rtype := hred
            obtain ⟨_, _, hshape⟩ := preprocessRec_ok_red hred0 heq
            have hfst : (rp.1 :: restp.1).get ⟨0, h2⟩ = rp.1 := rfl
            rw [hfst, hshape]
            exact ⟨rfl, rfl⟩
          | succ i =>
            intro hred
            have hb1 : i < rs.length := by
              simp at h1
              omega
            have hb2 : i < restp.1.length := by
              simp at h2
              omega
            have hred2 : isRedirectType (rs.get ⟨i, hb1⟩).rtype := hred
            have hres := ihget i hb1 hb2 hred2
            have harg : rp.2 + countRedirects (List.take i rs) =
                p + countRedirects (List.take (i + 1) (r :: rs)) := by
              rw [hrp2, List.take_succ_cons, countRedirects_cons]
              cases hb : isRedirect r <;> simp [hb] <;> omega
            rw [harg] at hres
            exact hres

theorem ipTransformRec_notA {c : CFState} {r : RecordConfig}
    (h : r.rtype ≠ "A") : ipTransformRec c r = .ok r := by
  unfold ipTransformRec
  rw [if_pos h]

theorem ipTransformAll_char {c : CFState} :
    ∀ {l l2 : List RecordConfig}, ipTransformAll c l = .ok l2 →
      l2.length = l.length ∧
      (∀ (i : Nat) (h1 : i < l.length) (h2 : i < l2.length),
        (l.get ⟨i, h1⟩).rtype ≠ "A" → l2.get ⟨i, h2⟩ = l.get ⟨i, h1⟩) := by
  intro l
  induction l with
  | nil =>
    intro l2 h
    unfold ipTransformAll at h
    injection h with h1
    subst h1
    refine ⟨rfl, ?_⟩
    intro i h1
    exact absurd h1 (by simp)
  | cons r rs ih =>
    intro l2 h
    unfold ipTransformAll at h
    split at h
    next e heq => exact absurd h (by simp)
    next r1 heq =>
      split at h
      next e2 heq2 => exact absurd h (by simp)
      next rest heq2 =>
        injection h with h1
        subst h1
        obtain ⟨ihlen, ihget⟩ := ih heq2
        refine ⟨by simp [ihlen], ?_⟩
        intro i h1 h2
        cases i with
        | zero =>
          intro hA
          have hA0 : r.rtype ≠ "A" := hA
          have hid := ipTransformRec_notA (c := c) hA0
          rw [hid] at heq
          injection heq with h3
          show r1 = r
          exact h3.symm
        | succ i =>
          intro hA
          have hb1 : i < rs.length := by
            simp at h1
            omega
          have hb2 : i < rest.length := by
            simp at h2
            omega
          have hA2 : (rs.get ⟨i, hb1⟩).rtype ≠ "A" := hA
          exact ihget i hb1 hb2 hA2

theorem preprocessConfig_parts {c : CFState} {dc dc1 : DomainConfig}
    (h : preprocessConfig c dc = .ok dc1) :
    ∃ dp rsp, cfDefProxy dc = .ok dp ∧
      ¬ (dc.dmeta.universalSSL ≠ "" ∧
         asciiLower dc.dmeta.universalSSL ≠ "on" ∧
         asciiLower dc.dmeta.universalSSL ≠ "off") ∧
      preprocessLoop c dp 1 dc.records.reverse = .ok rsp ∧
      ipTransformAll c rsp.1.reverse = .ok dc1.records ∧
      dc1.name = dc.name ∧ dc1.dmeta = dc.dmeta := by
  unfold preprocessConfig at h
  split at h
  next e heq => exact absurd h (by simp)
  next dp heq =>
    split at h
    next hc => exact absurd h (by simp)
    next hssl =>
      split at h
      next e2 heq2 => exact absurd h (by simp)
      next rsp heq2 =>
        split at h
        next e3 heq3 => exact absurd h (by simp)
        next rs2 heq3 =>
          injection h with h1
          subst h1
          exact ⟨dp, rsp, heq, hssl, heq2, heq3, rfl, rfl⟩

/-- Rebuilding `preprocessConfig` from its stages. -/
theorem preprocessConfig_build {c : CFState} {dc : DomainConfig} {dp : String}
    {rsp : List RecordConfig × Nat} {rs2 : List RecordConfig}
    (hdp : cfDefProxy dc = .ok dp)
    (hssl : ¬ (dc.dmeta.universalSSL ≠ "" ∧
               asciiLower dc.dmeta.universalSSL ≠ "on" ∧
               asciiLower dc.dmeta.universalSSL ≠ "off"))
    (hlp : preprocessLoop c dp 1 dc.records.reverse = .ok rsp)
    (hip : ipTransformAll c rsp.1.reverse = .ok rs2) :
    preprocessConfig c dc = .ok { dc with records := rs2 } := by
  unfold preprocessConfig
  simp only [hdp]
  rw [if_neg hssl]
  simp only [hlp, hip]

theorem get_rev_of_eq {α : Type} (l : List α) (i j : Nat)
    (h : i < l.reverse.length) (hj : j = l.length - 1 - i) (hjl : j < l.length) :
    l.reverse.get ⟨i, h⟩ = l.get ⟨j, hjl⟩ := by
  subst hj
  rw [List.get_eq_getElem, List.get_eq_getElem]
  exact List.getElem_reverse h

theorem preprocessConfig_redirect_requires {c : CFState} {dc dc1 : DomainConfig}
    (h : preprocessConfig c dc = .ok dc1) :
    ∀ r ∈ dc.records, isRedirectType r.rtype →
      c.manageRedirects = true ∧ (strSplit r.target ',').length = 2 := by
  obtain ⟨dp, rsp, _, _, hlp, _, _, _⟩ := preprocessConfig_parts h
  intro r hr hred
  exact preprocessLoop_ok_redirects hlp r (List.mem_reverse.mpr hr) hred

/-- C5: for every CF_REDIRECT / CF_TEMP_REDIRECT record in the desired set,
normalization fails with an error when `manage_redirects` is disabled or
when the target does not split into exactly two comma-separated fields;
otherwise the record is rewritten to a PAGE_RULE whose target is
`from,to,priority,statusCode`, the status code being 301 for CF_REDIRECT
and 302 for CF_TEMP_REDIRECT, with priorities 1, 2, 3, … assigned in
reverse declaration order (position `i` of the reversed record list gets
1 plus the number of redirect records declared after it). -/
theorem spec_C5_redirect_encoding :
    (∀ (c : CFState) (dc : DomainConfig) (r : RecordConfig), r ∈ dc.records →
       isRedirectType r.rtype →
       (c.manageRedirects = false ∨ (strSplit r.target ',').length ≠ 2) →
       ∃ e, preprocessConfig c dc = .error e) ∧
    (∀ r : RecordConfig, (r.rtype = "CF_REDIRECT" → redirectCode r = 301) ∧
       (r.rtype = "CF_TEMP_REDIRECT" → redirectCode r = 302)) ∧
    (∀ (c : CFState) (dc dc1 : DomainConfig), preprocessConfig c dc = .ok dc1 →
       dc1.records.length = dc.records.length ∧
       (∀ (i : Nat) (h1 : i < dc.records.reverse.length)
          (h2 : i < dc1.records.reverse.length),
          isRedirectType (dc.records.reverse.get ⟨i, h1⟩).rtype →
            (dc1.records.reverse.get ⟨i, h2⟩).rtype = "PAGE_RULE" ∧
            (dc1.records.reverse.get ⟨i, h2⟩).target =
              (dc.records.reverse.get ⟨i, h1⟩).target ++ "," ++
              Nat.repr (1 + countRedirects (dc.records.reverse.take i)) ++ "," ++
              Nat.repr (redirectCode (dc.records.reverse.get ⟨i, h1⟩)))) := by
  refine ⟨?_, ?_, ?_⟩
  · intro c dc r hr hred hbad
    cases hk : preprocessConfig c dc with
    | error e => exact ⟨e, rfl⟩
    | ok dc1 =>
      obtain ⟨hm, hs⟩ := preprocessConfig_redirect_requires hk r hr hred
      rcases hbad with hb | hb
      · rw [hm] at hb
        exact absurd hb (by simp)
      · exact absurd hs hb
  · intro r
    constructor
    · intro h
      simp [redirectCode, h]
    · intro h
      simp [redirectCode, h]
  · intro c dc dc1 h
    obtain ⟨dp, rsp, hdp, hssl, hlp, hip, hname, hdmeta⟩ := preprocessConfig_parts h
    obtain ⟨hlen1, hp1, hget1⟩ := preprocessLoop_char hlp
    obtain ⟨hlen2, hget2⟩ := ipTransformAll_char hip
    have hlenA : rsp.1.length = dc.records.length := by
      rw [hlen1, List.length_reverse]
    have hlenR : dc1.records.length = dc.records.length := by
      rw [hlen2, List.length_reverse, hlenA]
    refine ⟨hlenR, ?_⟩
    intro i h1 h2 hred
    have hiN : i < dc.records.length := by simpa using h1
    have hi2 : i < rsp.1.length := hlenA ▸ hiN
    have hloop := hget1 i h1 hi2 hred
    have hj : dc.records.length - 1 - i < dc1.records.length := by
      rw [hlenR]
      omega
    have e1 : dc1.records.reverse.get ⟨i, h2⟩ =
        dc1.records.get ⟨dc.records.length - 1 - i, hj⟩ :=
      get_rev_of_eq _ i (dc.records.length - 1 - i) h2 (by rw [hlenR]) hj
    have hjrev : dc.records.length - 1 - i < rsp.1.reverse.length := by
      rw [List.length_reverse, hlenA]
      omega
    have e3 : rsp.1.reverse.get ⟨dc.records.length - 1 - i, hjrev⟩ =
        rsp.1.get ⟨i, hi2⟩ :=
      get_rev_of_eq _ (dc.records.length - 1 - i) i hjrev
        (by rw [hlenA]; omega) hi2
    have hnotA : (rsp.1.reverse.get ⟨dc.records.length - 1 - i, hjrev⟩).rtype ≠ "A" := by
      rw [e3, hloop.1]
      decide
    have e2 : dc1.records.get ⟨dc.records.length - 1 - i, hj⟩ =
        rsp.1.reverse.get ⟨dc.records.length - 1 - i, hjrev⟩ :=
      hget2 (dc.records.length - 1 - i) hjrev hj hnotA
    rw [e1, e2, e3]
    exact hloop

/-- Provider state for the C5 witness: redirects are managed, nothing is
ignored or transformed. -/
def c5st : CFState := ⟨[], true, [], fun _ => true⟩

/-- First-declared redirect of the C5 witness. -/
def c5rec1 : RecordConfig :=
  ⟨"CF_REDIRECT", "@", "a.com/*,b.com/$1", 0, ⟨"", ""⟩, none⟩

/-- Second-declared (temporary) redirect of the C5 witness. -/
def c5rec2 : RecordConfig :=
  ⟨"CF_TEMP_REDIRECT", "@", "c.com/*,d.com/$1", 0, ⟨"", ""⟩, none⟩

/-- Desired configuration of the C5 witness. -/
def c5dc : DomainConfig := ⟨"example.com", [c5rec1, c5rec2], ⟨"", ""⟩⟩

/-- Normalized output of the C5 witness: the last-declared redirect takes
priority 1 with code 302, the first-declared takes priority 2 with
code 301. -/
def c5out : DomainConfig :=
  ⟨"example.com",
   [⟨"PAGE_RULE", "@", "a.com/*,b.com/$1,2,301", 1, ⟨"off", ""⟩, none⟩,
    ⟨"PAGE_RULE", "@", "c.com/*,d.com/$1,1,302", 1, ⟨"off", ""⟩, none⟩],
   ⟨"", ""⟩⟩

/-- Witness for C5 at a concrete two-redirect configuration: normalization
succeeds with the encoded page rules, and the theorem applied at the
last-declared redirect confirms the PAGE_RULE rewrite. -/
theorem spec_C5_redirect_encoding_witness :
    preprocessConfig c5st c5dc = .ok c5out ∧
    ((c5out.records.reverse.get ⟨0, by decide⟩).rtype = "PAGE_RULE" ∧
     (c5out.records.reverse.get ⟨0, by decide⟩).target =
       (c5dc.records.reverse.get ⟨0, by decide⟩).target ++ "," ++
       Nat.repr (1 + countRedirects (c5dc.records.reverse.take 0)) ++ "," ++
       Nat.repr (redirectCode (c5dc.records.reverse.get ⟨0, by decide⟩))) :=
  ⟨by decide,
   (spec_C5_redirect_encoding.2.2 c5st c5dc c5out (by decide)).2 0 (by decide)
     (by decide) (by decide)⟩

/-! ## Idempotence of normalization (C4) -/

/-- The proxy-capable record types of `preprocessConfig` (line 310). -/
def proxyableType (t : String) : Prop :=
  t = "A" ∨ t = "CNAME" ∨ t = "AAAA" ∨ t = "ALIAS"

instance (t : String) : Decidable (proxyableType t) :=
  inferInstanceAs (Decidable (_ ∨ _ ∨ _ ∨ _))

/-- A record as `preprocessConfig` leaves it when its type is proxy-capable:
TTL is a `cfNormTTL` fixed point and the proxy metadata is one of the three
valid values. -/
def cfNormalized (r : RecordConfig) : Prop :=
  proxyableType r.rtype ∧ cfNormTTL r.ttl = r.ttl ∧
    (r.meta.proxy = "on" ∨ r.meta.proxy = "off" ∨ r.meta.proxy = "full")

/-- A record the ip-conversion pass maps to itself. -/
def cfIPStable (c : CFState) (r : RecordConfig) : Prop :=
  r.rtype = "A" → r.meta.proxy = "full" →
    (c.isValidIP r.target = true ∧ r.meta.originalIP = r.target ∧
     transformIP c.ipConversions r.target = r.target)

theorem proxyable_not_redirect {t : String} (h : proxyableType t) :
    ¬ isRedirectType t := by
  rcases h with h | h | h | h <;> rw [h] <;> decide

theorem transformIP_nil (ip : String) : transformIP [] ip = ip := rfl

theorem preprocessMeta_ok_valid {dp : String} {r r1 : RecordConfig}
    (h : preprocessMeta dp r = .ok r1)
    (hdp : dp = "on" ∨ dp = "off" ∨ dp = "full") :
    r1.meta.proxy = "on" ∨ r1.meta.proxy = "off" ∨ r1.meta.proxy = "full" := by
  unfold preprocessMeta at h
  split at h
  · split at h
    · exact absurd h (by simp)
    · injection h with h1
      rw [← h1]
      exact Or.inr (Or.inl rfl)
  · split at h
    · injection h with h1
      rw [← h1]
      exact hdp
    · cases hcv : checkProxyVal r.meta.proxy with
      | error e =>
        rw [hcv] at h
        exact absurd h (by simp)
      | ok val =>
        rw [hcv] at h
        injection h with h1
        rw [← h1]
        exact (checkProxyVal_ok hcv).2

theorem preprocessRec_establish {c : CFState} {dp : String} {p : Nat}
    {r : RecordConfig} {rp : RecordConfig × Nat}
    (hdp : dp = "on" ∨ dp = "off" ∨ dp = "full")
    (hp : proxyableType r.rtype)
    (h : preprocessRec c dp p r = .ok rp) : cfNormalized rp.1 := by
  have hnr : ¬ isRedirectType r.rtype := proxyable_not_redirect hp
  obtain ⟨r1, hm, hrede⟩ := preprocessRec_ok_iff.mp h
  have hvalid := preprocessMeta_ok_valid hm hdp
  have hshape := preprocessMeta_ok hm
  have hnr1 : ¬ isRedirectType r1.rtype := by
    rw [hshape]
    exact hnr
  have h2 := (preprocessRedirect_not hnr1).symm.trans hrede
  injection h2 with h3
  rw [← h3]
  refine ⟨?_, ?_, hvalid⟩
  · rw [hshape]
    exact hp
  · rw [hshape]
    exact cfNormTTL_idem r.ttl

theorem preprocessLoop_establish {c : CFState} {dp : String}
    (hdp : dp = "on" ∨ dp = "off" ∨ dp = "full") :
    ∀ {l : List RecordConfig} {p : Nat} {lp : List RecordConfig × Nat},
      preprocessLoop c dp p l = .ok lp →
      (∀ r ∈ l, proxyableType r.rtype) →
      ∀ x ∈ lp.1, cfNormalized x := by
  intro l
  induction l with
  | nil =>
    intro p lp h _
    unfold preprocessLoop at h
    injection h with h1
    subst h1
    intro x hx
    exact absurd hx (by simp)
  | cons r rs ih =>
    intro p lp h hall
    unfold preprocessLoop at h
    split at h
    next e heq => exact absurd h (by simp)
    next rp heq =>
      split at h
      next e2 heq2 => exact absurd h (by simp)
      next restp heq2 =>
        injection h with h1
        subst h1
        intro x hx
        rcases List.mem_cons.mp hx with heqx | hmem
        · subst heqx
          exact preprocessRec_establish hdp (hall r (List.mem_cons_self r rs)) heq
        · exact ih heq2 (fun y hy => hall y (List.mem_cons_of_mem _ hy)) x hmem

theorem ipTransformRec_establish {c : CFState} {r r2 : RecordConfig}
    (htbl : c.ipConversions = []) (hP : cfNormalized r)
    (h : ipTransformRec c r = .ok r2) :
    cfNormalized r2 ∧ cfIPStable c r2 := by
  unfold ipTransformRec at h
  split at h
  next hA =>
    injection h with h1
    subst h1
    exact ⟨hP, fun hA2 => absurd hA2 hA⟩
  next hA =>
    push_neg at hA
    split at h
    next hf =>
      injection h with h1
      subst h1
      exact ⟨hP, fun _ hf2 => absurd hf2 hf⟩
    next hf =>
      push_neg at hf
      split at h
      · exact absurd h (by simp)
      next hv =>
        injection h with h1
        rw [htbl] at h1
        rw [transformIP_nil] at h1
        subst h1
        have hv2 : c.isValidIP r.target = true := by
          revert hv
          cases c.isValidIP r.target <;> simp
        constructor
        · exact ⟨hP.1, hP.2.1, hP.2.2⟩
        · intro _ _
          rw [htbl]
          exact ⟨hv2, rfl, rfl⟩

theorem ipTransformAll_establish {c : CFState} (htbl : c.ipConversions = []) :
    ∀ {l l2 : List RecordConfig}, (∀ r ∈ l, cfNormalized r) →
      ipTransformAll c l = .ok l2 →
      ∀ x ∈ l2, cfNormalized x ∧ cfIPStable c x := by
  intro l
  induction l with
  | nil =>
    intro l2 _ h
    unfold ipTransformAll at h
    injection h with h1
    subst h1
    intro x hx
    exact absurd hx (by simp)
  | cons r rs ih =>
    intro l2 hall h
    unfold ipTransformAll at h
    split at h
    next e heq => exact absurd h (by simp)
    next r1 heq =>
      split at h
      next e2 heq2 => exact absurd h (by simp)
      next rest heq2 =>
        injection h with h1
        subst h1
        intro x hx
        rcases List.mem_cons.mp hx with heqx | hmem
        · subst heqx
          exact ipTransformRec_establish htbl (hall r (List.mem_cons_self r rs)) heq
        · exact ih (fun y hy => hall y (List.mem_cons_of_mem _ hy)) heq2 x hmem

theorem preprocessMeta_fixpoint {dp : String} {r : RecordConfig}
    (hp : proxyableType r.rtype)
    (hproxy : r.meta.proxy = "on" ∨ r.meta.proxy = "off" ∨ r.meta.proxy = "full") :
    preprocessMeta dp r = .ok r := by
  unfold preprocessMeta
  rw [if_neg (by rcases hp with h | h | h | h <;> simp [h])]
  rw [if_neg (by rcases hproxy with h | h | h <;> rw [h] <;> decide)]
  rcases hproxy with h | h | h
  · rw [h, show checkProxyVal "on" = Except.ok "on" from by decide, ← h]
  · rw [h, show checkProxyVal "off" = Except.ok "off" from by decide, ← h]
  · rw [h, show checkProxyVal "full" = Except.ok "full" from by decide, ← h]

theorem preprocessRec_fixpoint {c : CFState} {dp : String} {p : Nat}
    {r : RecordConfig} (hP : cfNormalized r) :
    preprocessRec c dp p r = .ok (r, p) := by
  obtain ⟨hp, httl, hproxy⟩ := hP
  have hre : ({ r with ttl := cfNormTTL r.ttl } : RecordConfig) = r := by
    rw [httl]
  unfold preprocessRec
  rw [hre, preprocessMeta_fixpoint hp hproxy]
  show preprocessRedirect c p r = Except.ok (r, p)
  exact preprocessRedirect_not (proxyable_not_redirect hp)

theorem preprocessLoop_fixpoint {c : CFState} {dp : String} :
    ∀ {l : List RecordConfig} {p : Nat}, (∀ r ∈ l, cfNormalized r) →
      preprocessLoop c dp p l = .ok (l, p) := by
  intro l
  induction l with
  | nil =>
    intro p _
    rfl
  | cons r rs ih =>
    intro p hall
    unfold preprocessLoop
    rw [preprocessRec_fixpoint (hall r (List.mem_cons_self r rs))]
    show (match preprocessLoop c dp p rs with
          | .error e => Except.error e
          | .ok restp => Except.ok (r :: restp.1, restp.2)) = Except.ok (r :: rs, p)
    rw [ih (fun y hy => hall y (List.mem_cons_of_mem _ hy))]

theorem ipTransformRec_fixpoint {c : CFState} {r : RecordConfig}
    (hq : cfIPStable c r) : ipTransformRec c r = .ok r := by
  unfold ipTransformRec
  by_cases hA : r.rtype ≠ "A"
  · rw [if_pos hA]
  · push_neg at hA
    rw [if_neg (by simp [hA])]
    by_cases hf : r.meta.proxy ≠ "full"
    · rw [if_pos hf]
    · push_neg at hf
      rw [if_neg (by simp [hf])]
      obtain ⟨hv, ho, ht⟩ := hq hA hf
      rw [if_neg (by simp [hv])]
      refine congrArg Except.ok ?_
      obtain ⟨a, b, tg, d, ⟨mp, moi⟩, o⟩ := r
      simp only at ho ht
      simp [ht, ho]

theorem ipTransformAll_fixpoint {c : CFState} :
    ∀ {l : List RecordConfig}, (∀ r ∈ l, cfIPStable c r) →
      ipTransformAll c l = .ok l := by
  intro l
  induction l with
  | nil =>
    intro _
    rfl
  | cons r rs ih =>
    intro hall
    unfold ipTransformAll
    rw [ipTransformRec_fixpoint (hall r (List.mem_cons_self r rs))]
    show (match ipTransformAll c rs with
          | .error e => Except.error e
          | .ok rest => Except.ok (r :: rest)) = Except.ok (r :: rs)
    rw [ih (fun y hy => hall y (List.mem_cons_of_mem _ hy))]

/-- Provider state for the C4 counterexample. -/
def c4st : CFState := ⟨[], false, [], fun _ => true⟩

/-- A single ordinary TXT record. -/
def c4rec : RecordConfig := ⟨"TXT", "www", "hello", 120, ⟨"", ""⟩, none⟩

/-- Desired configuration of the C4 counterexample. -/
def c4dc : DomainConfig := ⟨"example.com", [c4rec], ⟨"", ""⟩⟩

/-- The normalized result of the first `preprocessConfig` run on `c4dc`. -/
def c4out : DomainConfig :=
  ⟨"example.com", [⟨"TXT", "www", "hello", 120, ⟨"off", ""⟩, none⟩], ⟨"", ""⟩⟩

/-- C4 counterexample: normalizing a one-TXT-record configuration succeeds,
but running `preprocessConfig` again on the already-normalized result fails
with an error rather than succeeding unchanged: the first run forces
`cloudflare_proxy=off` onto the TXT record and the second run rejects any
set proxy metadata on a non-proxyable type. -/
theorem spec_C4_counterexample :
    preprocessConfig c4st c4dc = .ok c4out ∧
    preprocessConfig c4st c4out =
      .error "cloudflare_proxy set on TXT record: www cloudflare_proxy=off" :=
  ⟨by decide, by decide⟩

/-- C4 (amended): `preprocessConfig` is not idempotent in general — on any
normalized set containing a record whose type is outside
A/AAAA/CNAME/ALIAS (including the PAGE_RULE results of CF_REDIRECT
rewriting) the second run fails with a cloudflare_proxy error.  When every
desired record has a proxy-capable type and no ip conversions are
configured, a second run succeeds and returns the normalized configuration
unchanged (every record keeps its type, label, target, TTL and
metadata). -/
theorem spec_C4_amended_idempotence {c : CFState} {dc dc1 : DomainConfig}
    (htbl : c.ipConversions = [])
    (htypes : ∀ r ∈ dc.records, proxyableType r.rtype)
    (h : preprocessConfig c dc = .ok dc1) :
    preprocessConfig c dc1 = .ok dc1 := by
  obtain ⟨dp, rsp, hdp, hssl, hlp, hipA, hname, hdmeta⟩ := preprocessConfig_parts h
  have hdpv := cfDefProxy_ok hdp
  have hP1 : ∀ x ∈ rsp.1, cfNormalized x :=
    preprocessLoop_establish hdpv hlp
      (fun r hr => htypes r (List.mem_reverse.mp hr))
  have hPQ : ∀ x ∈ dc1.records, cfNormalized x ∧ cfIPStable c x :=
    ipTransformAll_establish htbl
      (fun x hx => hP1 x (List.mem_reverse.mp hx)) hipA
  have hdp2 : cfDefProxy dc1 = .ok dp := by
    unfold cfDefProxy at hdp ⊢
    rw [hdmeta]
    exact hdp
  have hssl2 : ¬ (dc1.dmeta.universalSSL ≠ "" ∧
      asciiLower dc1.dmeta.universalSSL ≠ "on" ∧
      asciiLower dc1.dmeta.universalSSL ≠ "off") := by
    rw [hdmeta]
    exact hssl
  have hloop2 : preprocessLoop c dp 1 dc1.records.reverse =
      .ok (dc1.records.reverse, 1) :=
    preprocessLoop_fixpoint (fun r hr => (hPQ r (List.mem_reverse.mp hr)).1)
  have hip2 : ipTransformAll c (dc1.records.reverse, 1).1.reverse =
      .ok dc1.records := by
    rw [show ((dc1.records.reverse, 1) :
          List RecordConfig × Nat).1.reverse = dc1.records from
        List.reverse_reverse dc1.records]
    exact ipTransformAll_fixpoint (fun r hr => (hPQ r hr).2)
  exact preprocessConfig_build hdp2 hssl2 hloop2 hip2

/-- An already-normalized one-A-record configuration used by the C4
witness. -/
def c4Adc : DomainConfig :=
  ⟨"example.com", [⟨"A", "www", "1.2.3.4", 1, ⟨"off", ""⟩, none⟩], ⟨"", ""⟩⟩

/-- Witness for the amended C4 at a concrete configuration: one A record,
no ip conversions — the second run returns the normalized output
unchanged. -/
theorem spec_C4_amended_idempotence_witness :
    preprocessConfig c4st c4Adc = .ok c4Adc :=
  @spec_C4_amended_idempotence c4st c4Adc c4Adc rfl
    (by
      intro r hr
      have hr2 : r ∈ [(⟨"A", "www", "1.2.3.4", 1, ⟨"off", ""⟩, none⟩ :
          RecordConfig)] := hr
      rcases List.mem_singleton.mp hr2 with rfl
      exact Or.inl rfl)
    (by decide)

/-! ## Correction categories and plan ordering (C1) -/

/-- The category of a correction in the plan ordering: deletes before
creates before modifies, zone-level corrections last. -/
def Correction.category : Correction → Nat
  | .delRec _ => 0
  | .delPageRule _ => 0
  | .createRec _ => 1
  | .createPageRule _ => 1
  | .modRec _ _ => 2
  | .modPageRule _ _ => 2
  | .universalSSL _ => 3
  | .refreshZone _ => 3

theorem category_le_three (x : Correction) : x.category ≤ 3 := by
  cases x <;> simp [Correction.category]

/-- The category order between two corrections. -/
def catLE (a b : Correction) : Prop := a.category ≤ b.category

theorem pairwise_cat_const {k : Nat} :
    ∀ {l : List Correction}, (∀ x ∈ l, Correction.category x = k) →
      l.Pairwise catLE := by
  intro l
  induction l with
  | nil => intro _; exact List.Pairwise.nil
  | cons a t ih =>
    intro h
    refine List.Pairwise.cons ?_ (ih fun x hx => h x (List.mem_cons_of_mem _ hx))
    intro b hb
    unfold catLE
    rw [h a (List.mem_cons_self _ _), h b (List.mem_cons_of_mem _ hb)]

theorem pairwise_cat_append {l1 l2 : List Correction} (b : Nat)
    (h1 : l1.Pairwise catLE) (h2 : l2.Pairwise catLE)
    (hb1 : ∀ x ∈ l1, x.category ≤ b) (hb2 : ∀ x ∈ l2, b ≤ x.category) :
    (l1 ++ l2).Pairwise catLE :=
  List.pairwise_append.mpr
    ⟨h1, h2, fun a ha b' hb' => le_trans (hb1 a ha) (hb2 b' hb')⟩

theorem cfDiffCorrections_cat (d : DiffResult) :
    ∀ x ∈ cfDiffCorrections d, x.category ≤ 2 := by
  intro x hx
  unfold cfDiffCorrections at hx
  rcases List.mem_append.mp hx with hx1 | hx2
  · rcases List.mem_append.mp hx1 with hxa | hxb
    · obtain ⟨ex, _, rfl⟩ := List.mem_map.mp hxa
      by_cases h : ex.rtype = "PAGE_RULE" <;> simp [h, Correction.category]
    · obtain ⟨des, _, rfl⟩ := List.mem_map.mp hxb
      by_cases h : des.rtype = "PAGE_RULE" <;> simp [h, Correction.category]
  · obtain ⟨pr, _, rfl⟩ := List.mem_map.mp hx2
    by_cases h : pr.2.rtype = "PAGE_RULE" <;> simp [h, Correction.category]

theorem cfDiffCorrections_sorted (d : DiffResult) :
    (cfDiffCorrections d).Pairwise catLE := by
  unfold cfDiffCorrections
  have hd : ∀ x ∈ d.del.map (fun ex =>
      if ex.rtype = "PAGE_RULE" then Correction.delPageRule ex
      else Correction.delRec ex), Correction.category x = 0 := by
    intro x hx
    obtain ⟨ex, _, rfl⟩ := List.mem_map.mp hx
    by_cases h : ex.rtype = "PAGE_RULE" <;> simp [h, Correction.category]
  have hc : ∀ x ∈ d.create.map (fun des =>
      if des.rtype = "PAGE_RULE" then Correction.createPageRule des
      else Correction.createRec des), Correction.category x = 1 := by
    intro x hx
    obtain ⟨des, _, rfl⟩ := List.mem_map.mp hx
    by_cases h : des.rtype = "PAGE_RULE" <;> simp [h, Correction.category]
  have hm : ∀ x ∈ d.modify.map (fun pr =>
      if pr.2.rtype = "PAGE_RULE" then Correction.modPageRule pr.1 pr.2
      else Correction.modRec pr.1 pr.2), Correction.category x = 2 := by
    intro x hx
    obtain ⟨pr, _, rfl⟩ := List.mem_map.mp hx
    by_cases h : pr.2.rtype = "PAGE_RULE" <;> simp [h, Correction.category]
  refine pairwise_cat_append 2
    (pairwise_cat_append 1 (pairwise_cat_const hd) (pairwise_cat_const hc)
      (fun x hx => by rw [hd x hx]; omega)
      (fun x hx => le_of_eq (hc x hx).symm))
    (pairwise_cat_const hm) ?_ (fun x hx => le_of_eq (hm x hx).symm)
  intro x hx
  rcases List.mem_append.mp hx with hx1 | hx2
  · rw [hd x hx1]
    omega
  · rw [hc x hx2]
    omega

theorem ovhRecordCorrections_cat (d : DiffResult) :
    ∀ x ∈ ovhRecordCorrections d, x.category ≤ 2 := by
  intro x hx
  unfold ovhRecordCorrections at hx
  rcases List.mem_append.mp hx with hx1 | hx2
  · rcases List.mem_append.mp hx1 with hxa | hxb
    · obtain ⟨ex, _, rfl⟩ := List.mem_map.mp hxa
      simp [Correction.category]
    · obtain ⟨des, _, rfl⟩ := List.mem_map.mp hxb
      simp [Correction.category]
  · obtain ⟨pr, _, rfl⟩ := List.mem_map.mp hx2
    simp [Correction.category]

theorem ovhRecordCorrections_sorted (d : DiffResult) :
    (ovhRecordCorrections d).Pairwise catLE := by
  unfold ovhRecordCorrections
  have hd : ∀ x ∈ d.del.map (fun ex => Correction.delRec ex),
      Correction.category x = 0 := by
    intro x hx
    obtain ⟨ex, _, rfl⟩ := List.mem_map.mp hx
    simp [Correction.category]
  have hc : ∀ x ∈ d.create.map (fun des => Correction.createRec des),
      Correction.category x = 1 := by
    intro x hx
    obtain ⟨des, _, rfl⟩ := List.mem_map.mp hx
    simp [Correction.category]
  have hm : ∀ x ∈ d.modify.map (fun pr => Correction.modRec pr.1 pr.2),
      Correction.category x = 2 := by
    intro x hx
    obtain ⟨pr, _, rfl⟩ := List.mem_map.mp hx
    simp [Correction.category]
  refine pairwise_cat_append 2
    (pairwise_cat_append 1 (pairwise_cat_const hd) (pairwise_cat_const hc)
      (fun x hx => by rw [hd x hx]; omega)
      (fun x hx => le_of_eq (hc x hx).symm))
    (pairwise_cat_const hm) ?_ (fun x hx => le_of_eq (hm x hx).symm)
  intro x hx
  rcases List.mem_append.mp hx with hx1 | hx2
  · rw [hd x hx1]
    omega
  · rw [hc x hx2]
    omega

theorem cfSSLAppend_sorted {dc : DomainConfig} {f : Option Bool}
    {base : List Correction} (hb : base.Pairwise catLE)
    (hble : ∀ x ∈ base, x.category ≤ 3) :
    (cfSSLAppend dc f base).Pairwise catLE := by
  unfold cfSSLAppend
  split
  · split
    · refine pairwise_cat_append 3 hb ?_ hble ?_
      · exact List.pairwise_singleton _ _
      · intro x hx
        rcases List.mem_singleton.mp hx with rfl
        simp [Correction.category]
    · exact hb
  · exact hb

theorem ovhAppendRefresh_sorted {name : String} {base : List Correction}
    (hb : base.Pairwise catLE) (hble : ∀ x ∈ base, x.category ≤ 3) :
    (ovhAppendRefresh name base).Pairwise catLE := by
  unfold ovhAppendRefresh
  split
  · exact hb
  · refine pairwise_cat_append 3 hb ?_ hble ?_
    · exact List.pairwise_singleton _ _
    · intro x hx
      rcases List.mem_singleton.mp hx with rfl
      simp [Correction.category]

/-- The exact shape of a successful Cloudflare `GetDomainCorrections`
result. -/
theorem getDomainCorrections_ok_shape {c : CFState} {zone : CFZone}
    {dc : DomainConfig} {l : List Correction}
    (h : getDomainCorrections c zone dc = .ok l) :
    ∃ dc1 desired, preprocessConfig c dc = .ok dc1 ∧
      cfDesiredForDiff c dc.name dc1.records = .ok desired ∧
      l = cfSSLAppend dc zone.universalSSLFetch
        (cfDiffCorrections (incrementalDiff getProxyExtra desired
          (postProcessRecords (cfActualRecords c zone dc.name)))) := by
  unfold getDomainCorrections at h
  split at h
  next e heq => exact absurd h (by simp)
  next dc1 heq =>
    unfold cfCorrectionsAfterPreprocess at h
    split at h
    next m heq2 => exact absurd h (by simp)
    next m heq2 => exact absurd h (by simp)
    next desired heq2 =>
      injection h with h1
      exact ⟨dc1, desired, heq, heq2, h1.symm⟩

/-- The exact shape of a successful OVH `GetDomainCorrections` result. -/
theorem ovhGetDomainCorrections_ok_shape {zones : List String}
    {parse : PopulateFn} {natives : List OvhNative} {dc : DomainConfig}
    {l : List Correction}
    (h : ovhGetDomainCorrections zones parse natives dc = .ok l) :
    ∃ actual, ovhIngest parse dc.name natives = .ok actual ∧
      l = ovhAppendRefresh dc.name
        (ovhRecordCorrections (incrementalDiff (fun _ => "") dc.records
          (postProcessRecords actual))) := by
  unfold ovhGetDomainCorrections at h
  split at h
  · exact absurd h (by simp)
  · split at h
    next m heq => exact absurd h (by simp)
    next m heq => exact absurd h (by simp)
    next actual heq =>
      injection h with h1
      exact ⟨actual, heq, h1.symm⟩

/-! ## Ingestion lemmas and determinism -/

/-- The per-record conversion as an optional canonical record (`none` for
SOA skips and panics). -/
def ovhConvOpt (parse : PopulateFn) (origin : String) (r : OvhNative) :
    Option RecordConfig :=
  match ovhNativeToRecord parse r origin with
  | .conv cr => some cr
  | _ => none

theorem ovhIngest_ok_filterMap {parse : PopulateFn} {origin : String} :
    ∀ {ns : List OvhNative} {l : List RecordConfig},
      ovhIngest parse origin ns = .ok l →
      l = ns.filterMap (ovhConvOpt parse origin) := by
  intro ns
  induction ns with
  | nil =>
    intro l h
    unfold ovhIngest at h
    injection h with h1
    subst h1
    rfl
  | cons r rs ih =>
    intro l h
    unfold ovhIngest at h
    split at h
    next m heq => exact absurd h (by simp)
    next heq =>
      rw [List.filterMap_cons, show ovhConvOpt parse origin r = none from by
        unfold ovhConvOpt; rw [heq]]
      exact ih h
    next cr heq =>
      split at h
      next ll heq2 =>
        injection h with h1
        subst h1
        rw [List.filterMap_cons, show ovhConvOpt parse origin r = some cr from by
          unfold ovhConvOpt; rw [heq]]
        rw [ih heq2]
      next m heq2 => exact absurd h (by simp)
      next m heq2 => exact absurd h (by simp)

theorem ovhIngest_ok_nopanic {parse : PopulateFn} {origin : String} :
    ∀ {ns : List OvhNative} {l : List RecordConfig},
      ovhIngest parse origin ns = .ok l →
      ∀ r ∈ ns, ∀ m, ovhNativeToRecord parse r origin ≠ .panicked m := by
  intro ns
  induction ns with
  | nil =>
    intro l _ r hr
    exact absurd hr (by simp)
  | cons x xs ih =>
    intro l h r hr m
    unfold ovhIngest at h
    split at h
    next m2 heq => exact absurd h (by simp)
    next heq =>
      rcases List.mem_cons.mp hr with heqr | hmem
      · subst heqr
        rw [heq]
        simp
      · exact ih h r hmem m
    next cr heq =>
      split at h
      next ll heq2 =>
        rcases List.mem_cons.mp hr with heqr | hmem
        · subst heqr
          rw [heq]
          simp
        · exact ih heq2 r hmem m
      next m2 heq2 => exact absurd h (by simp)
      next m2 heq2 => exact absurd h (by simp)

theorem ovhIngest_ok_of_nopanic {parse : PopulateFn} {origin : String} :
    ∀ {ns : List OvhNative},
      (∀ r ∈ ns, ∀ m, ovhNativeToRecord parse r origin ≠ .panicked m) →
      ∃ l, ovhIngest parse origin ns = .ok l := by
  intro ns
  induction ns with
  | nil =>
    intro _
    exact ⟨[], rfl⟩
  | cons r rs ih =>
    intro hnp
    cases hc : ovhNativeToRecord parse r origin with
    | panicked m => exact absurd hc (hnp r (List.mem_cons_self r rs) m)
    | skip =>
      obtain ⟨l, hl⟩ := ih (fun y hy => hnp y (List.mem_cons_of_mem _ hy))
      refine ⟨l, ?_⟩
      unfold ovhIngest
      rw [hc]
      exact hl
    | conv cr =>
      obtain ⟨l, hl⟩ := ih (fun y hy => hnp y (List.mem_cons_of_mem _ hy))
      refine ⟨cr :: l, ?_⟩
      unfold ovhIngest
      rw [hc, hl]

theorem ovhIngest_panic {parse : PopulateFn} {origin : String} :
    ∀ {ns : List OvhNative},
      (∃ r ∈ ns, ∃ m, ovhNativeToRecord parse r origin = .panicked m) →
      ∃ m2, ovhIngest parse origin ns = .fatal m2 := by
  intro ns
  induction ns with
  | nil =>
    rintro ⟨r, hr, _⟩
    exact absurd hr (by simp)
  | cons x xs ih =>
    rintro ⟨r, hr, m, hm⟩
    cases hc : ovhNativeToRecord parse x origin with
    | panicked m2 =>
      refine ⟨m2, ?_⟩
      unfold ovhIngest
      rw [hc]
    | skip =>
      have hmem : r ∈ xs := by
        rcases List.mem_cons.mp hr with heqr | hmem2
        · subst heqr
          rw [hc] at hm
          exact absurd hm (by simp)
        · exact hmem2
      obtain ⟨m2, hm2⟩ := ih ⟨r, hmem, m, hm⟩
      refine ⟨m2, ?_⟩
      unfold ovhIngest
      rw [hc]
      exact hm2
    | conv cr =>
      have hmem : r ∈ xs := by
        rcases List.mem_cons.mp hr with heqr | hmem2
        · subst heqr
          rw [hc] at hm
          exact absurd hm (by simp)
        · exact hmem2
      obtain ⟨m2, hm2⟩ := ih ⟨r, hmem, m, hm⟩
      refine ⟨m2, ?_⟩
      unfold ovhIngest
      rw [hc, hm2]

/-- Permuting the fetched actual records and page rules permutes the list
entering the Cloudflare differ. -/
theorem cfActualRecords_perm {c : CFState} {zone1 zone2 : CFZone}
    (name : String) (hrec : zone1.records.Perm zone2.records)
    (hpr : zone1.pageRules.Perm zone2.pageRules) :
    (cfActualRecords c zone1 name).Perm (cfActualRecords c zone2 name) := by
  unfold cfActualRecords
  by_cases hm : c.manageRedirects = true
  · rw [if_pos hm, if_pos hm]
    exact (hrec.filter _).append hpr
  · rw [if_neg hm, if_neg hm]
    exact hrec.filter _

/-- Cloudflare reconciliation is a function of the actual-state multisets:
two zones whose fetched records and page rules are permutations of each
other (and agree on the universal-SSL state) give identical outcomes. -/
theorem cf_deterministic {c : CFState} {zone1 zone2 : CFZone}
    {dc : DomainConfig} (hrec : zone1.records.Perm zone2.records)
    (hpr : zone1.pageRules.Perm zone2.pageRules)
    (hssl : zone1.universalSSLFetch = zone2.universalSSLFetch) :
    getDomainCorrections c zone1 dc = getDomainCorrections c zone2 dc := by
  have hcorr : ∀ norm, cfCorrectionsAfterPreprocess c zone1 dc norm =
      cfCorrectionsAfterPreprocess c zone2 dc norm := by
    intro norm
    unfold cfCorrectionsAfterPreprocess
    cases hd : cfDesiredForDiff c dc.name norm with
    | fatal m => rfl
    | err m => rfl
    | ok desired =>
      have hperm : (postProcessRecords (cfActualRecords c zone1 dc.name)).Perm
          (postProcessRecords (cfActualRecords c zone2 dc.name)) :=
        cfActualRecords_perm dc.name hrec hpr
      show Outcome.ok (cfSSLAppend dc zone1.universalSSLFetch
          (cfDiffCorrections (incrementalDiff getProxyExtra desired
            (postProcessRecords (cfActualRecords c zone1 dc.name))))) =
        Outcome.ok (cfSSLAppend dc zone2.universalSSLFetch
          (cfDiffCorrections (incrementalDiff getProxyExtra desired
            (postProcessRecords (cfActualRecords c zone2 dc.name)))))
      rw [incrementalDiff_perm_actual getProxyExtra desired hperm, hssl]
  unfold getDomainCorrections
  cases hp : preprocessConfig c dc with
  | error e => rfl
  | ok dc1 =>
    show cfCorrectionsAfterPreprocess c zone1 dc dc1.records =
      cfCorrectionsAfterPreprocess c zone2 dc dc1.records
    exact hcorr dc1.records

/-- OVH reconciliation is a function of the native-record multiset: when a
run succeeds, the same run over a permutation of the natives succeeds with
the identical correction list. -/
theorem ovh_deterministic {zones : List String} {parse : PopulateFn}
    {ns1 ns2 : List OvhNative} {dc : DomainConfig} {l : List Correction}
    (hperm : ns1.Perm ns2)
    (h : ovhGetDomainCorrections zones parse ns1 dc = .ok l) :
    ovhGetDomainCorrections zones parse ns2 dc = .ok l := by
  obtain ⟨actual, hing, hl⟩ := ovhGetDomainCorrections_ok_shape h
  have hz : ¬ (¬ zones.contains dc.name = true) := by
    unfold ovhGetDomainCorrections at h
    by_cases hz2 : ¬ zones.contains dc.name = true
    · rw [if_pos hz2] at h
      exact absurd h (by simp)
    · exact hz2
  have hnp2 : ∀ r ∈ ns2, ∀ m, ovhNativeToRecord parse r dc.name ≠ .panicked m :=
    fun r hr => ovhIngest_ok_nopanic hing r (hperm.mem_iff.mpr hr)
  obtain ⟨actual2, hing2⟩ := ovhIngest_ok_of_nopanic hnp2
  have hap : actual.Perm actual2 := by
    rw [ovhIngest_ok_filterMap hing, ovhIngest_ok_filterMap hing2]
    exact hperm.filterMap _
  unfold ovhGetDomainCorrections
  rw [if_neg hz, hing2]
  show Outcome.ok (ovhAppendRefresh dc.name
      (ovhRecordCorrections (incrementalDiff (fun _ => "") dc.records
        (postProcessRecords actual2)))) = Outcome.ok l
  have heq : incrementalDiff (fun _ => "") dc.records (postProcessRecords actual2) =
      incrementalDiff (fun _ => "") dc.records (postProcessRecords actual) :=
    incrementalDiff_perm_actual _ _
      (hap.symm : (postProcessRecords actual2).Perm (postProcessRecords actual))
  rw [heq, hl]

/-- C1: every reconciliation pass returns its corrections grouped by
category — all deletes before all creates before all modifies (zone-level
corrections last) — and the correction list is deterministic: identical
inputs with the actual records supplied in any element order produce
identical correction lists, for both the Cloudflare and the OVH
reconciliation. -/
theorem spec_C1_ordering_and_determinism :
    (∀ (c : CFState) (zone : CFZone) (dc : DomainConfig) (l : List Correction),
       getDomainCorrections c zone dc = .ok l → l.Pairwise catLE) ∧
    (∀ (zones : List String) (parse : PopulateFn) (natives : List OvhNative)
       (dc : DomainConfig) (l : List Correction),
       ovhGetDomainCorrections zones parse natives dc = .ok l →
       l.Pairwise catLE) ∧
    (∀ (c : CFState) (zone1 zone2 : CFZone) (dc : DomainConfig),
       zone1.records.Perm zone2.records →
       zone1.pageRules.Perm zone2.pageRules →
       zone1.universalSSLFetch = zone2.universalSSLFetch →
       getDomainCorrections c zone1 dc = getDomainCorrections c zone2 dc) ∧
    (∀ (zones : List String) (parse : PopulateFn) (ns1 ns2 : List OvhNative)
       (dc : DomainConfig) (l : List Correction), ns1.Perm ns2 →
       ovhGetDomainCorrections zones parse ns1 dc = .ok l →
       ovhGetDomainCorrections zones parse ns2 dc = .ok l) := by
  refine ⟨?_, ?_, ?_, ?_⟩
  · intro c zone dc l h
    obtain ⟨dc1, desired, _, _, hl⟩ := getDomainCorrections_ok_shape h
    rw [hl]
    exact cfSSLAppend_sorted (cfDiffCorrections_sorted _)
      (fun x hx => le_trans (cfDiffCorrections_cat _ x hx) (by omega))
  · intro zones parse natives dc l h
    obtain ⟨actual, _, hl⟩ := ovhGetDomainCorrections_ok_shape h
    rw [hl]
    exact ovhAppendRefresh_sorted (ovhRecordCorrections_sorted _)
      (fun x hx => le_trans (ovhRecordCorrections_cat _ x hx) (by omega))
  · intro c zone1 zone2 dc h1 h2 h3
    exact cf_deterministic h1 h2 h3
  · intro zones parse ns1 ns2 dc l h1 h2
    exact ovh_deterministic h1 h2

/-- Empty Cloudflare zone state used by the C1 witness. -/
def c1zone : CFZone := ⟨[], [], none⟩

/-- The single create correction the C1 witness run produces. -/
def c1out : List Correction :=
  [Correction.createRec ⟨"TXT", "www", "hello", 120, ⟨"off", ""⟩, none⟩]

/-- Witness for C1 at a concrete run: the reconciliation of one desired
TXT record against an empty zone is invariant under the (trivial)
reordering of the actual records, and its correction list is ordered by
category. -/
theorem spec_C1_ordering_and_determinism_witness :
    getDomainCorrections c4st c1zone c4dc = getDomainCorrections c4st c1zone c4dc ∧
    c1out.Pairwise catLE :=
  ⟨spec_C1_ordering_and_determinism.2.2.1 c4st c1zone c1zone c4dc
     (List.Perm.refl _) (List.Perm.refl _) rfl,
   spec_C1_ordering_and_determinism.1 c4st c1zone c4dc c1out (by decide)⟩

/-! ## Zone-level finalization corrections (C6) -/

theorem ssl_notin_cfDiff (d : DiffResult) (s : Bool) :
    Correction.universalSSL s ∉ cfDiffCorrections d := by
  intro hx
  unfold cfDiffCorrections at hx
  rcases List.mem_append.mp hx with hx1 | hx2
  · rcases List.mem_append.mp hx1 with hxa | hxb
    · obtain ⟨ex, _, hex⟩ := List.mem_map.mp hxa
      by_cases h : ex.rtype = "PAGE_RULE" <;> simp [h] at hex
    · obtain ⟨des, _, hdes⟩ := List.mem_map.mp hxb
      by_cases h : des.rtype = "PAGE_RULE" <;> simp [h] at hdes
  · obtain ⟨pr, _, hpr⟩ := List.mem_map.mp hx2
    by_cases h : pr.2.rtype = "PAGE_RULE" <;> simp [h] at hpr

/-- C6: zone-level finalization corrections appear exactly when warranted.
For OVH, the REFRESH-zone correction is appended if and only if the
record-level correction list is non-empty, and the whole plan is empty if
and only if the record-level list is; for Cloudflare, with a successful
universal-SSL fetch, a Universal-SSL correction appears in the plan if and
only if the metadata is configured and the fetched state differs from the
configured value; and a Cloudflare pass whose diff partitions are all empty
and whose universal-SSL check reports no change returns an empty correction
list. -/
theorem spec_C6_zone_level_corrections :
    (∀ (zones : List String) (parse : PopulateFn) (natives : List OvhNative)
       (dc : DomainConfig) (actual : List RecordConfig) (l : List Correction),
       ovhIngest parse dc.name natives = .ok actual →
       ovhGetDomainCorrections zones parse natives dc = .ok l →
       ((Correction.refreshZone dc.name ∈ l ↔
         ovhRecordCorrections (incrementalDiff (fun _ => "") dc.records
           (postProcessRecords actual)) ≠ []) ∧
        (l = [] ↔
         ovhRecordCorrections (incrementalDiff (fun _ => "") dc.records
           (postProcessRecords actual)) = []))) ∧
    (∀ (c : CFState) (zone : CFZone) (dc : DomainConfig)
       (l : List Correction) (actual : Bool),
       getDomainCorrections c zone dc = .ok l →
       zone.universalSSLFetch = some actual →
       ((∃ s, Correction.universalSSL s ∈ l) ↔
        (dc.dmeta.universalSSL ≠ "" ∧
         actual ≠ (dc.dmeta.universalSSL != "off")))) ∧
    (∀ (c : CFState) (zone : CFZone) (dc : DomainConfig)
       (norm desired : List RecordConfig),
       cfDesiredForDiff c dc.name norm = .ok desired →
       (incrementalDiff getProxyExtra desired
         (postProcessRecords (cfActualRecords c zone dc.name))).del = [] →
       (incrementalDiff getProxyExtra desired
         (postProcessRecords (cfActualRecords c zone dc.name))).create = [] →
       (incrementalDiff getProxyExtra desired
         (postProcessRecords (cfActualRecords c zone dc.name))).modify = [] →
       (∀ p, checkUniversalSSL dc zone.universalSSLFetch = .ok p →
         p.1 = false) →
       cfCorrectionsAfterPreprocess c zone dc norm = .ok []) := by
  refine ⟨?_, ?_, ?_⟩
  · intro zones parse natives dc actual l hing h
    obtain ⟨actual2, hing2, hl⟩ := ovhGetDomainCorrections_ok_shape h
    have hae : actual2 = actual := by
      rw [hing] at hing2
      injection hing2 with h1
      exact h1.symm
    subst hae
    subst hl
    unfold ovhAppendRefresh
    by_cases he : (ovhRecordCorrections (incrementalDiff (fun _ => "")
        dc.records (postProcessRecords actual2))).isEmpty = true
    · rw [if_pos he]
      have hnil := List.isEmpty_iff.mp he
      rw [hnil]
      constructor
      · constructor
        · intro hx
          exact absurd hx (by simp)
        · intro hne
          exact absurd rfl hne
      · constructor
        · intro _
          rfl
        · intro _
          rfl
    · rw [if_neg he]
      have hne : ovhRecordCorrections (incrementalDiff (fun _ => "")
          dc.records (postProcessRecords actual2)) ≠ [] := by
        intro hc
        rw [hc] at he
        exact he rfl
      constructor
      · constructor
        · intro _
          exact hne
        · intro _
          exact List.mem_append.mpr (Or.inr (List.mem_singleton.mpr rfl))
      · constructor
        · intro hc
          exact absurd hc (by simp)
        · intro hc
          exact absurd hc hne
  · intro c zone dc l actual h hf
    obtain ⟨dc1, desired, _, _, hl⟩ := getDomainCorrections_ok_shape h
    subst hl
    rw [hf]
    unfold cfSSLAppend checkUniversalSSL
    by_cases hm : dc.dmeta.universalSSL = ""
    · rw [if_pos hm]
      constructor
      · rintro ⟨s, hs⟩
        exact absurd hs (ssl_notin_cfDiff _ s)
      · rintro ⟨hne, _⟩
        exact absurd hm hne
    · rw [if_neg hm]
      show (∃ s, Correction.universalSSL s ∈
          (if (actual != (dc.dmeta.universalSSL != "off")) = true then
            cfDiffCorrections _ ++
              [Correction.universalSSL (dc.dmeta.universalSSL != "off")]
          else cfDiffCorrections _)) ↔ _
      by_cases hch : (actual != (dc.dmeta.universalSSL != "off")) = true
      · rw [if_pos hch]
        constructor
        · intro _
          exact ⟨hm, bne_iff_ne.mp hch⟩
        · intro _
          exact ⟨dc.dmeta.universalSSL != "off",
            List.mem_append.mpr (Or.inr (List.mem_singleton.mpr rfl))⟩
      · rw [if_neg hch]
        constructor
        · rintro ⟨s, hs⟩
          exact absurd hs (ssl_notin_cfDiff _ s)
        · rintro ⟨_, hne⟩
          exact absurd (by simpa using hch) hne
  · intro c zone dc norm desired hd h1 h2 h3 hssl
    unfold cfCorrectionsAfterPreprocess
    rw [hd]
    show Outcome.ok (cfSSLAppend dc zone.universalSSLFetch
        (cfDiffCorrections (incrementalDiff getProxyExtra desired
          (postProcessRecords (cfActualRecords c zone dc.name))))) =
      Outcome.ok []
    have hbase : cfDiffCorrections (incrementalDiff getProxyExtra desired
        (postProcessRecords (cfActualRecords c zone dc.name))) = [] := by
      unfold cfDiffCorrections
      rw [h1, h2, h3]
      rfl
    rw [hbase]
    unfold cfSSLAppend
    cases hcu : checkUniversalSSL dc zone.universalSSLFetch with
    | error e => rfl
    | ok p =>
      show Outcome.ok (if p.1 = true then [] ++ [Correction.universalSSL p.2]
        else []) = Outcome.ok []
      rw [hssl p hcu]
      rfl

/-- Cloudflare zone state for the C6 witness: universal SSL currently
disabled. -/
def c6zone : CFZone := ⟨[], [], some false⟩

/-- Domain for the C6 witness: universal SSL configured on, no records. -/
def c6dc : DomainConfig := ⟨"example.com", [], ⟨"", "on"⟩⟩

/-- Witness for C6 at a concrete run: with universal SSL configured on but
disabled at the zone, the (otherwise empty) plan contains the Universal-SSL
correction, in agreement with the biconditional. -/
theorem spec_C6_zone_level_corrections_witness :
    (∃ s, Correction.universalSSL s ∈ [Correction.universalSSL true]) ↔
      (c6dc.dmeta.universalSSL ≠ "" ∧
       false ≠ (c6dc.dmeta.universalSSL != "off")) :=
  spec_C6_zone_level_corrections.2.1 c4st c6zone c6dc
    [Correction.universalSSL true] false (by decide) rfl

/-! ## Ignored labels (C7) -/

theorem forceDesiredRec_label (r : RecordConfig) :
    (forceDesiredRec r).label = r.label := by
  unfold forceDesiredRec
  split_ifs <;> rfl

theorem forceDesiredRec_meta (r : RecordConfig) :
    (forceDesiredRec r).meta = r.meta := by
  unfold forceDesiredRec
  split_ifs <;> rfl

theorem forceDesiredRec_ttl1 {r : RecordConfig} (hp : r.meta.proxy ≠ "off") :
    (forceDesiredRec r).ttl = 1 := by
  unfold forceDesiredRec
  by_cases hA : r.rtype = "ALIAS"
  · rw [if_pos hA,
      if_pos (show ({ r with rtype := "CNAME" } : RecordConfig).meta.proxy ≠ "off" from hp)]
  · rw [if_neg hA, if_pos hp]

theorem forceDesired_ok_shape {c : CFState} :
    ∀ {recs out : List RecordConfig}, forceDesired c recs = .ok out →
      out = recs.map forceDesiredRec ∧
      ∀ r ∈ recs, labelMatches (forceDesiredRec r).label c.ignoredLabels = false := by
  intro recs
  induction recs with
  | nil =>
    intro out h
    injection h with h1
    subst h1
    exact ⟨rfl, fun r hr => absurd hr (by simp)⟩
  | cons x xs ih =>
    intro out h
    unfold forceDesired at h
    split at h
    · exact absurd h (by simp)
    next hlab =>
      split at h
      next l2 heq =>
        injection h with h1
        subst h1
        obtain ⟨ho, hl⟩ := ih heq
        refine ⟨by rw [List.map_cons, ho], ?_⟩
        intro r hr
        rcases List.mem_cons.mp hr with heqr | hmem
        · subst heqr
          revert hlab
          cases labelMatches (forceDesiredRec r).label c.ignoredLabels <;> simp
        · exact hl r hmem
      next m heq => exact absurd h (by simp)
      next m heq => exact absurd h (by simp)

theorem forceDesired_fatal {c : CFState} :
    ∀ {recs : List RecordConfig},
      (∃ r ∈ recs, labelMatches r.label c.ignoredLabels = true) →
      ∃ m, forceDesired c recs = .fatal m := by
  intro recs
  induction recs with
  | nil =>
    rintro ⟨r, hr, _⟩
    exact absurd hr (by simp)
  | cons x xs ih =>
    rintro ⟨r, hr, hm⟩
    by_cases hx : labelMatches (forceDesiredRec x).label c.ignoredLabels = true
    · refine ⟨"FATAL: dnsconfig contains label that matches ignored_labels: " ++
        (forceDesiredRec x).label, ?_⟩
      unfold forceDesired
      rw [if_pos hx]
    · have hmem : r ∈ xs := by
        rcases List.mem_cons.mp hr with heqr | hmem2
        · subst heqr
          rw [forceDesiredRec_label] at hx
          exact absurd hm hx
        · exact hmem2
      obtain ⟨m, hm2⟩ := ih ⟨r, hmem, hm⟩
      refine ⟨m, ?_⟩
      unfold forceDesired
      rw [if_neg hx, hm2]

theorem cfDesiredForDiff_ok {c : CFState} {name : String}
    {norm desired : List RecordConfig}
    (h : cfDesiredForDiff c name norm = .ok desired) :
    ∃ out, forceDesired c norm = .ok out ∧
      desired = (checkNSModifications name out).1 := by
  unfold cfDesiredForDiff at h
  split at h
  next out heq =>
    injection h with h1
    exact ⟨out, heq, h1.symm⟩
  next m heq => exact absurd h (by simp)
  next m heq => exact absurd h (by simp)

theorem mem_cfSSLAppend {dc : DomainConfig} {f : Option Bool}
    {base : List Correction} {corr : Correction}
    (h : corr ∈ cfSSLAppend dc f base) :
    corr ∈ base ∨ ∃ s, corr = Correction.universalSSL s := by
  unfold cfSSLAppend at h
  split at h
  · split at h
    · rcases List.mem_append.mp h with h1 | h2
      · exact Or.inl h1
      · exact Or.inr ⟨_, List.mem_singleton.mp h2⟩
    · exact Or.inl h
  · exact Or.inl h

theorem delRec_mem_base {d : DiffResult} {x : RecordConfig}
    (h : Correction.delRec x ∈ cfDiffCorrections d) : x ∈ d.del := by
  unfold cfDiffCorrections at h
  rcases List.mem_append.mp h with h1 | h2
  · rcases List.mem_append.mp h1 with ha | hb
    · obtain ⟨ex, hex, heq⟩ := List.mem_map.mp ha
      by_cases hp : ex.rtype = "PAGE_RULE"
      · simp [hp] at heq
      · rw [if_neg hp] at heq
        injection heq with h3
        rw [← h3]
        exact hex
    · obtain ⟨des, _, heq⟩ := List.mem_map.mp hb
      by_cases hp : des.rtype = "PAGE_RULE" <;> simp [hp] at heq
  · obtain ⟨pr, _, heq⟩ := List.mem_map.mp h2
    by_cases hp : pr.2.rtype = "PAGE_RULE" <;> simp [hp] at heq

theorem delPageRule_mem_base {d : DiffResult} {x : RecordConfig}
    (h : Correction.delPageRule x ∈ cfDiffCorrections d) : x ∈ d.del := by
  unfold cfDiffCorrections at h
  rcases List.mem_append.mp h with h1 | h2
  · rcases List.mem_append.mp h1 with ha | hb
    · obtain ⟨ex, hex, heq⟩ := List.mem_map.mp ha
      by_cases hp : ex.rtype = "PAGE_RULE"
      · rw [if_pos hp] at heq
        injection heq with h3
        rw [← h3]
        exact hex
      · simp [hp] at heq
    · obtain ⟨des, _, heq⟩ := List.mem_map.mp hb
      by_cases hp : des.rtype = "PAGE_RULE" <;> simp [hp] at heq
  · obtain ⟨pr, _, heq⟩ := List.mem_map.mp h2
    by_cases hp : pr.2.rtype = "PAGE_RULE" <;> simp [hp] at heq

theorem modRec_mem_base {d : DiffResult} {x des : RecordConfig}
    (h : Correction.modRec x des ∈ cfDiffCorrections d) :
    ∃ pr ∈ d.modify, pr.1 = x := by
  unfold cfDiffCorrections at h
  rcases List.mem_append.mp h with h1 | h2
  · rcases List.mem_append.mp h1 with ha | hb
    · obtain ⟨ex, _, heq⟩ := List.mem_map.mp ha
      by_cases hp : ex.rtype = "PAGE_RULE" <;> simp [hp] at heq
    · obtain ⟨d2, _, heq⟩ := List.mem_map.mp hb
      by_cases hp : d2.rtype = "PAGE_RULE" <;> simp [hp] at heq
  · obtain ⟨pr, hpr, heq⟩ := List.mem_map.mp h2
    by_cases hp : pr.2.rtype = "PAGE_RULE"
    · simp [hp] at heq
    · rw [if_neg hp] at heq
      injection heq with h3 h4
      exact ⟨pr, hpr, h3⟩

theorem modPageRule_mem_base {d : DiffResult} {x des : RecordConfig}
    (h : Correction.modPageRule x des ∈ cfDiffCorrections d) :
    ∃ pr ∈ d.modify, pr.1 = x := by
  unfold cfDiffCorrections at h
  rcases List.mem_append.mp h with h1 | h2
  · rcases List.mem_append.mp h1 with ha | hb
    · obtain ⟨ex, _, heq⟩ := List.mem_map.mp ha
      by_cases hp : ex.rtype = "PAGE_RULE" <;> simp [hp] at heq
    · obtain ⟨d2, _, heq⟩ := List.mem_map.mp hb
      by_cases hp : d2.rtype = "PAGE_RULE" <;> simp [hp] at heq
  · obtain ⟨pr, hpr, heq⟩ := List.mem_map.mp h2
    by_cases hp : pr.2.rtype = "PAGE_RULE"
    · rw [if_pos hp] at heq
      injection heq with h3 h4
      exact ⟨pr, hpr, h3⟩
    · simp [hp] at heq

theorem createRec_mem_base {d : DiffResult} {x : RecordConfig}
    (h : Correction.createRec x ∈ cfDiffCorrections d) : x ∈ d.create := by
  unfold cfDiffCorrections at h
  rcases List.mem_append.mp h with h1 | h2
  · rcases List.mem_append.mp h1 with ha | hb
    · obtain ⟨ex, _, heq⟩ := List.mem_map.mp ha
      by_cases hp : ex.rtype = "PAGE_RULE" <;> simp [hp] at heq
    · obtain ⟨des, hdes, heq⟩ := List.mem_map.mp hb
      by_cases hp : des.rtype = "PAGE_RULE"
      · simp [hp] at heq
      · rw [if_neg hp] at heq
        injection heq with h3
        rw [← h3]
        exact hdes
  · obtain ⟨pr, _, heq⟩ := List.mem_map.mp h2
    by_cases hp : pr.2.rtype = "PAGE_RULE" <;> simp [hp] at heq

theorem createPageRule_mem_base {d : DiffResult} {x : RecordConfig}
    (h : Correction.createPageRule x ∈ cfDiffCorrections d) : x ∈ d.create := by
  unfold cfDiffCorrections at h
  rcases List.mem_append.mp h with h1 | h2
  · rcases List.mem_append.mp h1 with ha | hb
    · obtain ⟨ex, _, heq⟩ := List.mem_map.mp ha
      by_cases hp : ex.rtype = "PAGE_RULE" <;> simp [hp] at heq
    · obtain ⟨des, hdes, heq⟩ := List.mem_map.mp hb
      by_cases hp : des.rtype = "PAGE_RULE"
      · rw [if_pos hp] at heq
        injection heq with h3
        rw [← h3]
        exact hdes
      · simp [hp] at heq
  · obtain ⟨pr, _, heq⟩ := List.mem_map.mp h2
    by_cases hp : pr.2.rtype = "PAGE_RULE" <;> simp [hp] at heq

/-- Cloudflare state for the C7 counterexample: `www` is on the ignore
list. -/
def c7st : CFState := ⟨["www"], false, [], fun _ => true⟩

/-- A desired A record whose label collides with the ignore list. -/
def c7rec : RecordConfig := ⟨"A", "www", "1.2.3.4", 300, ⟨"", ""⟩, none⟩

/-- Desired configuration of the C7 counterexample. -/
def dc7 : DomainConfig := ⟨"example.com", [c7rec], ⟨"", ""⟩⟩

/-- Zone state of the C7 counterexample (empty, fetch unused). -/
def zone7 : CFZone := ⟨[], [], none⟩

/-- What normalization (`preprocessConfig`) makes of `dc7`: it succeeds —
the ignore-list collision is NOT detected during normalization. -/
def dc7n : DomainConfig :=
  ⟨"example.com", [⟨"A", "www", "1.2.3.4", 1, ⟨"off", ""⟩, none⟩], ⟨"", ""⟩⟩

/-- Counterexample for C7: a desired record whose label matches
`ignored_labels` sails through normalization (`preprocessConfig` returns
ok, so the error is not raised during normalization and not before network
access — the zone fetch precedes the check in `GetDomainCorrections`), and
the collision then surfaces as `log.Fatalf` — a process-terminating fault,
not an error return terminating only the reconciliation pass. -/
theorem spec_C7_counterexample :
    preprocessConfig c7st dc7 = Except.ok dc7n ∧
    getDomainCorrections c7st zone7 dc7 =
      Outcome.fatal
        "FATAL: dnsconfig contains label that matches ignored_labels: www" ∧
    (getDomainCorrections c7st zone7 dc7).isReturnedErr = false := by
  decide

/-- C7 (amended).  What does hold: (1) an actual (zone) record whose
trimmed native name matches `ignored_labels` — and which is not also a page
rule — is filtered out before diffing, so no successful plan ever deletes
or modifies it; (2) in a successful plan every created record has a
non-matching label; (3) a desired record whose label matches
`ignored_labels` after normalization makes `GetDomainCorrections` terminate
the process (`Outcome.fatal`, the model of `log.Fatalf`), not return an
error — and, per the counterexample, this happens after normalization and
after the zone fetch, not during normalization. -/
theorem spec_C7_amended_ignored_labels :
    (∀ (c : CFState) (zone : CFZone) (dc : DomainConfig) (l : List Correction),
        getDomainCorrections c zone dc = .ok l →
        ∀ r ∈ zone.records,
          labelMatches (trimDomainName (origName r) dc.name) c.ignoredLabels = true →
          r ∉ zone.pageRules →
          Correction.delRec r ∉ l ∧ Correction.delPageRule r ∉ l ∧
          ∀ des, Correction.modRec r des ∉ l ∧ Correction.modPageRule r des ∉ l) ∧
    (∀ (c : CFState) (zone : CFZone) (dc : DomainConfig) (l : List Correction),
        getDomainCorrections c zone dc = .ok l →
        ∀ x, (Correction.createRec x ∈ l ∨ Correction.createPageRule x ∈ l) →
          labelMatches x.label c.ignoredLabels = false) ∧
    (∀ (c : CFState) (zone : CFZone) (dc dc1 : DomainConfig),
        preprocessConfig c dc = .ok dc1 →
        (∃ r ∈ dc1.records, labelMatches r.label c.ignoredLabels = true) →
        ∃ m, getDomainCorrections c zone dc = .fatal m) := by
  refine ⟨?_, ?_, ?_⟩
  · intro c zone dc l h r hrmem hmatch hnpr
    obtain ⟨dc1, desired, hpre, hdes, hl⟩ := getDomainCorrections_ok_shape h
    have hract : r ∉ cfActualRecords c zone dc.name := by
      intro hmem
      have hsplit : r ∈ zone.records.filter
          (fun r => ! labelMatches (trimDomainName (origName r) dc.name) c.ignoredLabels) ∨
          r ∈ zone.pageRules := by
        unfold cfActualRecords at hmem
        split at hmem
        · exact (List.mem_append.mp hmem).imp id id
        · exact Or.inl hmem
      rcases hsplit with hf | hp
      · have hpred := List.of_mem_filter hf
        rw [hmatch] at hpred
        exact absurd hpred (by decide)
      · exact hnpr hp
    subst hl
    have hsrc := incrementalDiff_sources getProxyExtra desired
      (postProcessRecords (cfActualRecords c zone dc.name))
    refine ⟨?_, ?_, ?_⟩
    · intro hmem
      rcases mem_cfSSLAppend hmem with hb | ⟨s, hs⟩
      · exact hract (hsrc.1 r (delRec_mem_base hb))
      · exact absurd hs (by simp)
    · intro hmem
      rcases mem_cfSSLAppend hmem with hb | ⟨s, hs⟩
      · exact hract (hsrc.1 r (delPageRule_mem_base hb))
      · exact absurd hs (by simp)
    · intro des
      constructor
      · intro hmem
        rcases mem_cfSSLAppend hmem with hb | ⟨s, hs⟩
        · obtain ⟨pr, hpr, hfst⟩ := modRec_mem_base hb
          have := hsrc.2.1 pr hpr
          rw [hfst] at this
          exact hract this
        · exact absurd hs (by simp)
      · intro hmem
        rcases mem_cfSSLAppend hmem with hb | ⟨s, hs⟩
        · obtain ⟨pr, hpr, hfst⟩ := modPageRule_mem_base hb
          have := hsrc.2.1 pr hpr
          rw [hfst] at this
          exact hract this
        · exact absurd hs (by simp)
  · intro c zone dc l h x hmem0
    obtain ⟨dc1, desired, hpre, hdes, hl⟩ := getDomainCorrections_ok_shape h
    subst hl
    have hsrc := incrementalDiff_sources getProxyExtra desired
      (postProcessRecords (cfActualRecords c zone dc.name))
    have hxdes : x ∈ desired := by
      rcases hmem0 with hmem | hmem
      · rcases mem_cfSSLAppend hmem with hb | ⟨s, hs⟩
        · exact hsrc.2.2 x (createRec_mem_base hb)
        · exact absurd hs (by simp)
      · rcases mem_cfSSLAppend hmem with hb | ⟨s, hs⟩
        · exact hsrc.2.2 x (createPageRule_mem_base hb)
        · exact absurd hs (by simp)
    obtain ⟨out, hfd, hkept⟩ := cfDesiredForDiff_ok hdes
    obtain ⟨hout, hlab⟩ := forceDesired_ok_shape hfd
    have hxout : x ∈ out := by
      rw [hkept, checkNSModifications_kept] at hxdes
      exact List.mem_of_mem_filter hxdes
    rw [hout] at hxout
    obtain ⟨r0, hr0, hr0x⟩ := List.mem_map.mp hxout
    rw [← hr0x]
    exact hlab r0 hr0
  · intro c zone dc dc1 hpre hex
    obtain ⟨m, hfd⟩ := forceDesired_fatal hex
    refine ⟨m, ?_⟩
    have hdes : cfDesiredForDiff c dc.name dc1.records = .fatal m := by
      unfold cfDesiredForDiff
      rw [hfd]
    unfold getDomainCorrections
    rw [hpre]
    show cfCorrectionsAfterPreprocess c zone dc dc1.records = Outcome.fatal m
    unfold cfCorrectionsAfterPreprocess
    rw [hdes]

/-- Witness for the amended C7 at a concrete run: the desired label `www`
matches the ignore list and `GetDomainCorrections` terminates the
process. -/
theorem spec_C7_amended_ignored_labels_witness :
    ∃ m, getDomainCorrections c7st zone7 dc7 = Outcome.fatal m :=
  spec_C7_amended_ignored_labels.2.2 c7st zone7 dc7 dc7n (by decide) (by decide)

/-- A parsing oracle on which every target is unparsable. -/
def parse0 : PopulateFn := fun _ _ _ => none

/-- A provider-native OVH A record for the C8 counterexample. -/
def nat8 : OvhNative := ⟨1, "A", "www", "bogus", 0⟩

/-- Desired configuration of the C8 counterexample. -/
def dc8 : DomainConfig := ⟨"example.com", [], ⟨"", ""⟩⟩

/-- Counterexample for C8: an unparsable native record does abort the whole
ingestion, but it surfaces as a `panic` (`Outcome.fatal`, process
termination), not as an error returned from the reconciliation entry point
— `isReturnedErr` is false. -/
theorem spec_C8_counterexample :
    ovhGetDomainCorrections ["example.com"] parse0 [nat8] dc8 =
      Outcome.fatal "unparsable record received from ovh" ∧
    (ovhGetDomainCorrections ["example.com"] parse0 [nat8] dc8).isReturnedErr
      = false := by
  decide

/-- C8 (amended).  What does hold: (1) an unparsable native record anywhere
in the zone listing makes the OVH reconciliation entry point terminate the
process (`Outcome.fatal`, the model of `panic`), so the ingestion is
aborted as a whole — but as a process fault, not a returned error; (2) on
a successful run nothing was silently dropped: every non-SOA native record
parses and its conversion is present in the actual set handed to the
differ. -/
theorem spec_C8_unparsable_ingestion :
    (∀ (zones : List String) (parse : PopulateFn) (ns : List OvhNative)
        (dc : DomainConfig),
        zones.contains dc.name = true →
        (∃ r ∈ ns, ∃ m, ovhNativeToRecord parse r dc.name = .panicked m) →
        ∃ m2, ovhGetDomainCorrections zones parse ns dc = .fatal m2) ∧
    (∀ (zones : List String) (parse : PopulateFn) (ns : List OvhNative)
        (dc : DomainConfig) (l : List Correction),
        ovhGetDomainCorrections zones parse ns dc = .ok l →
        ∃ actual, ovhIngest parse dc.name ns = .ok actual ∧
          ∀ r ∈ ns, r.fieldType ≠ "SOA" →
            ∃ cr, ovhNativeToRecord parse r dc.name = .conv cr ∧ cr ∈ actual) := by
  constructor
  · intro zones parse ns dc hz hex
    obtain ⟨m2, hm2⟩ := ovhIngest_panic hex
    refine ⟨m2, ?_⟩
    unfold ovhGetDomainCorrections
    rw [if_neg (not_not_intro hz), hm2]
  · intro zones parse ns dc l h
    obtain ⟨actual, hing, _⟩ := ovhGetDomainCorrections_ok_shape h
    refine ⟨actual, hing, ?_⟩
    intro r hr hsoa
    have hnp := ovhIngest_ok_nopanic hing r hr
    have hconv : ∃ cr, ovhNativeToRecord parse r dc.name = .conv cr := by
      unfold ovhNativeToRecord
      rw [if_neg hsoa]
      unfold ovhNativeToRecord at hnp
      rw [if_neg hsoa] at hnp
      split
      next heq =>
        rw [heq] at hnp
        exact absurd rfl (hnp "unparsable record received from ovh")
      next tgt heq => exact ⟨_, rfl⟩
    obtain ⟨cr, hcr⟩ := hconv
    refine ⟨cr, hcr, ?_⟩
    rw [ovhIngest_ok_filterMap hing]
    refine List.mem_filterMap.mpr ⟨r, hr, ?_⟩
    unfold ovhConvOpt
    rw [hcr]

/-- Witness for the amended C8 at a concrete run: one unparsable native
record aborts the whole reconciliation with a process fault. -/
theorem spec_C8_unparsable_ingestion_witness :
    ∃ m2, ovhGetDomainCorrections ["example.com"] parse0 [nat8] dc8 =
      Outcome.fatal m2 :=
  spec_C8_unparsable_ingestion.1 ["example.com"] parse0 [nat8] dc8 (by decide)
    ⟨nat8, by decide, "unparsable record received from ovh", by decide⟩

theorem forceDesiredRec_ttl_indep (r : RecordConfig) (t : Nat)
    (hp : r.meta.proxy ≠ "off") :
    forceDesiredRec { r with ttl := t } = forceDesiredRec r := by
  unfold forceDesiredRec
  by_cases hA : r.rtype = "ALIAS" <;> simp [hA, hp]

theorem forceDesired_cons (c : CFState) (x : RecordConfig)
    (xs : List RecordConfig) :
    forceDesired c (x :: xs) =
      if labelMatches (forceDesiredRec x).label c.ignoredLabels then
        .fatal ("FATAL: dnsconfig contains label that matches ignored_labels: " ++
          (forceDesiredRec x).label)
      else
        match forceDesired c xs with
        | .ok l => .ok (forceDesiredRec x :: l)
        | .err m => .err m
        | .fatal m => .fatal m := rfl

theorem forceDesired_ttl_indep (c : CFState) (r : RecordConfig) (t : Nat)
    (hp : r.meta.proxy ≠ "off") :
    ∀ (pre post : List RecordConfig),
      forceDesired c (pre ++ { r with ttl := t } :: post) =
        forceDesired c (pre ++ r :: post) := by
  intro pre
  induction pre with
  | nil =>
    intro post
    rw [List.nil_append, List.nil_append, forceDesired_cons, forceDesired_cons,
      forceDesiredRec_ttl_indep r t hp]
  | cons p ps ih =>
    intro post
    rw [List.cons_append, List.cons_append, forceDesired_cons, forceDesired_cons,
      ih post]

/-- C10: in Cloudflare `GetDomainCorrections`, (1) every desired record
that survives to the differ with proxy metadata other than `off` carries
TTL exactly 1 — the desired-record loop forces it regardless of the
configured value; and (2) the user-configured TTL of such a record is
immaterial to the whole correction computation after preprocessing:
changing it changes nothing, so it can never produce a TTL modification
correction. -/
theorem spec_C10_proxied_ttl_one :
    (∀ (c : CFState) (name : String) (norm desired : List RecordConfig),
        cfDesiredForDiff c name norm = .ok desired →
        ∀ r ∈ desired, r.meta.proxy ≠ "off" → r.ttl = 1) ∧
    (∀ (c : CFState) (zone : CFZone) (dc : DomainConfig)
        (pre post : List RecordConfig) (r : RecordConfig) (t : Nat),
        r.meta.proxy ≠ "off" →
        cfCorrectionsAfterPreprocess c zone dc (pre ++ { r with ttl := t } :: post) =
          cfCorrectionsAfterPreprocess c zone dc (pre ++ r :: post)) := by
  constructor
  · intro c name norm desired h r hr hp
    obtain ⟨out, hfd, hkept⟩ := cfDesiredForDiff_ok h
    obtain ⟨hout, _⟩ := forceDesired_ok_shape hfd
    have hrout : r ∈ out := by
      rw [hkept, checkNSModifications_kept] at hr
      exact List.mem_of_mem_filter hr
    rw [hout] at hrout
    obtain ⟨r0, hr0, hr0r⟩ := List.mem_map.mp hrout
    have hp0 : r0.meta.proxy ≠ "off" := by
      rw [← forceDesiredRec_meta r0, hr0r]
      exact hp
    rw [← hr0r]
    exact forceDesiredRec_ttl1 hp0
  · intro c zone dc pre post r t hp
    unfold cfCorrectionsAfterPreprocess cfDesiredForDiff
    rw [forceDesired_ttl_indep c r t hp pre post]

/-- Post-normalization desired record for the C10 witness: proxied (`on`),
user-configured TTL 42. -/
def rec10 : RecordConfig := ⟨"A", "www", "1.2.3.4", 42, ⟨"on", ""⟩, none⟩

/-- The record as it reaches the differ: TTL forced to 1. -/
def rec10d : RecordConfig := ⟨"A", "www", "1.2.3.4", 1, ⟨"on", ""⟩, none⟩

/-- Cloudflare state for the C10 witness. -/
def c10st : CFState := ⟨[], false, [], fun _ => true⟩

/-- Witness for C10 at a concrete run: the desired A record configured with
TTL 42 and proxy on reaches the differ with TTL 1. -/
theorem spec_C10_proxied_ttl_one_witness : rec10d.ttl = 1 :=
  spec_C10_proxied_ttl_one.1 c10st "example.com" [rec10] [rec10d] (by decide)
    rec10d (by decide) (by decide)
